import Mathlib

/-! Overview.
Verification development for the media-download subsystem
(`src/app/api/files/process/route.ts` and the artifact-serving route).

The TypeScript source is shallowly embedded: each source function becomes an
executable Lean definition over explicit state; times are milliseconds as
naturals; maps are association lists; the filesystem is an association list
from file name to byte list (all artifacts live in one directory, so a file
is identified by its name).
-/

namespace DL

/-! Section: association-list maps (model of JS `Map` and of the artifact directory). -/

/-- Model of `Map.get`. -/
def getAssoc {α : Type} (m : List (String × α)) (k : String) : Option α :=
  match m with
  | [] => none
  | (k0, v) :: rest => if k0 = k then some v else getAssoc rest k

/-- Model of `Map.set`: replaces the entry for `k` when present, else appends. -/
def setAssoc {α : Type} (m : List (String × α)) (k : String) (v : α) :
    List (String × α) :=
  match m with
  | [] => [(k, v)]
  | (k0, v0) :: rest =>
      if k0 = k then (k0, v) :: rest else (k0, v0) :: setAssoc rest k v

/-- Model of `Map.delete` and of `unlinkSync`: removes the entry for `k`. -/
def delAssoc {α : Type} (m : List (String × α)) (k : String) :
    List (String × α) :=
  match m with
  | [] => []
  | (k0, v0) :: rest =>
      if k0 = k then rest else (k0, v0) :: delAssoc rest k

/-! Section: rate limiter (`checkRateLimit`, route.ts lines 123-138). -/

/-- One entry of the `rateLimits` map: `{ count, resetTime }`. -/
structure RateEntry where
  count : Nat
  resetTime : Nat
  deriving Repr, DecidableEq

/-- Constant `MAX_DOWNLOADS_PER_HOUR = 5`. -/
def MAX_DOWNLOADS_PER_HOUR : Nat := 5

/-- One hour in milliseconds (`3600000`). -/
def hourMs : Nat := 3600000

/-- Function `checkRateLimit(clientId)` from route.ts, with the ambient clock `now`
(`Date.now()`) and the global `rateLimits` map made explicit.  Returns the
admission decision and the updated map. -/
def checkRateLimit (now : Nat) (clientId : String)
    (rateLimits : List (String × RateEntry)) :
    Bool × List (String × RateEntry) :=
  match getAssoc rateLimits clientId with
  | none => (true, setAssoc rateLimits clientId ⟨1, now + hourMs⟩)
  | some limit =>
      if now > limit.resetTime then
        (true, setAssoc rateLimits clientId ⟨1, now + hourMs⟩)
      else if limit.count ≥ MAX_DOWNLOADS_PER_HOUR then
        (false, rateLimits)
      else
        (true, setAssoc rateLimits clientId
          ⟨limit.count + 1, limit.resetTime⟩)

/-- Run a timestamped request sequence for one client through the rate
limiter, collecting the admission flag of each request. -/
def runRequests (clientId : String) (times : List Nat)
    (rateLimits : List (String × RateEntry)) :
    List Bool × List (String × RateEntry) :=
  match times with
  | [] => ([], rateLimits)
  | t :: rest =>
      let r := checkRateLimit t clientId rateLimits
      let tail := runRequests clientId rest r.2
      (r.1 :: tail.1, tail.2)

/-- Admission flags only. -/
def admitFlags (clientId : String) (times : List Nat) : List Bool :=
  (runRequests clientId times []).1

/-- The timestamps of the admitted requests of a run from the empty map. -/
def admittedTimes (clientId : String) (times : List Nat) : List Nat :=
  ((times.zip (admitFlags clientId times)).filter (fun p => p.2)).map
    (fun p => p.1)

/-- Like `runRequests` but each request is annotated with its admission flag
and the identifier of the fixed window it was accounted against (the
`resetTime` stored for the client right after the request). -/
def runAnnot (clientId : String) (times : List Nat)
    (rateLimits : List (String × RateEntry)) : List (Bool × Nat) :=
  match times with
  | [] => []
  | t :: rest =>
      let r := checkRateLimit t clientId rateLimits
      let anchor := match getAssoc r.2 clientId with
        | some e => e.resetTime
        | none => 0
      (r.1, anchor) :: runAnnot clientId rest r.2

/-- Number of admitted requests accounted against window `w`. -/
def countAdm : List (Bool × Nat) → Nat → Nat
  | [], _ => 0
  | (true, a) :: l, w => (if a = w then 1 else 0) + countAdm l w
  | (false, _) :: l, w => countAdm l w

/-- Remaining admission capacity of window `w` for `clientId` in map `m`:
a window strictly older than the stored one can never be charged again. -/
def windowCap (clientId : String) (m : List (String × RateEntry)) (w : Nat) :
    Nat :=
  match getAssoc m clientId with
  | none => 5
  | some e =>
      if e.resetTime = w then 5 - e.count
      else if e.resetTime < w then 5 else 0

lemma getAssoc_setAssoc_self {α : Type} (m : List (String × α)) (k : String)
    (v : α) : getAssoc (setAssoc m k v) k = some v := by
  induction m with
  | nil => simp [setAssoc, getAssoc]
  | cons hd tl ih =>
      obtain ⟨k0, v0⟩ := hd
      by_cases h : k0 = k
      · simp [setAssoc, getAssoc, h]
      · simp [setAssoc, getAssoc, h, ih]

lemma runAnnot_cons_new (c : String) (t : Nat) (rest : List Nat)
    (m : List (String × RateEntry)) (hm : getAssoc m c = none) :
    runAnnot c (t :: rest) m =
      (true, t + hourMs) :: runAnnot c rest (setAssoc m c ⟨1, t + hourMs⟩) := by
  simp [runAnnot, checkRateLimit, hm, getAssoc_setAssoc_self]

lemma runAnnot_cons_reset (c : String) (t : Nat) (rest : List Nat)
    (m : List (String × RateEntry)) (e : RateEntry)
    (hm : getAssoc m c = some e) (hlt : e.resetTime < t) :
    runAnnot c (t :: rest) m =
      (true, t + hourMs) :: runAnnot c rest (setAssoc m c ⟨1, t + hourMs⟩) := by
  simp [runAnnot, checkRateLimit, hm, hlt, getAssoc_setAssoc_self]

lemma runAnnot_cons_live (c : String) (t : Nat) (rest : List Nat)
    (m : List (String × RateEntry)) (e : RateEntry)
    (hm : getAssoc m c = some e) (hle : t ≤ e.resetTime) (hcnt : e.count < 5) :
    runAnnot c (t :: rest) m =
      (true, e.resetTime) ::
        runAnnot c rest (setAssoc m c ⟨e.count + 1, e.resetTime⟩) := by
  simp [runAnnot, checkRateLimit, hm, MAX_DOWNLOADS_PER_HOUR,
    Nat.not_lt.mpr hle, Nat.not_le.mpr hcnt, getAssoc_setAssoc_self]

lemma runAnnot_cons_reject (c : String) (t : Nat) (rest : List Nat)
    (m : List (String × RateEntry)) (e : RateEntry)
    (hm : getAssoc m c = some e) (hle : t ≤ e.resetTime) (hcnt : 5 ≤ e.count) :
    runAnnot c (t :: rest) m = (false, e.resetTime) :: runAnnot c rest m := by
  simp [runAnnot, checkRateLimit, hm, MAX_DOWNLOADS_PER_HOUR,
    Nat.not_lt.mpr hle, hcnt]

/-- Core fixed-window invariant: a run can charge window `w` at most
`windowCap` more times. -/
lemma countAdm_runAnnot_le (c : String) :
    ∀ (times : List Nat) (m : List (String × RateEntry)) (w : Nat),
      countAdm (runAnnot c times m) w ≤ windowCap c m w := by
  intro times
  induction times with
  | nil =>
      intro m w
      simp [runAnnot, countAdm]
  | cons t rest ih =>
      intro m w
      rcases hm : getAssoc m c with _ | e
      · rw [runAnnot_cons_new c t rest m hm]
        have h2 := ih (setAssoc m c ⟨1, t + hourMs⟩) w
        simp only [windowCap, hm, getAssoc_setAssoc_self] at h2 ⊢
        simp only [countAdm]
        split_ifs at h2 ⊢ <;> omega
      · by_cases hreset : e.resetTime < t
        · rw [runAnnot_cons_reset c t rest m e hm hreset]
          have h2 := ih (setAssoc m c ⟨1, t + hourMs⟩) w
          simp only [windowCap, hm, getAssoc_setAssoc_self] at h2 ⊢
          simp only [countAdm]
          split_ifs at h2 ⊢ <;> omega
        · have hle : t ≤ e.resetTime := Nat.not_lt.mp hreset
          by_cases hcnt : e.count < 5
          · rw [runAnnot_cons_live c t rest m e hm hle hcnt]
            have h2 := ih (setAssoc m c ⟨e.count + 1, e.resetTime⟩) w
            simp only [windowCap, hm, getAssoc_setAssoc_self] at h2 ⊢
            simp only [countAdm]
            split_ifs at h2 ⊢ <;> omega
          · have hge : 5 ≤ e.count := Nat.not_lt.mp hcnt
            rw [runAnnot_cons_reject c t rest m e hm hle hge]
            have h2 := ih m w
            simp only [windowCap, hm] at h2 ⊢
            simp only [countAdm]
            split_ifs at h2 ⊢ <;> omega

/-- C1: on first request from an identity, or any request after the window
expiry, `checkRateLimit` admits and resets a 1-hour window (`count = 1`,
`resetTime = now + hourMs`); within a live window it increments the counter
and admits exactly while the incremented counter stays at or below the
maximum of 5; once the counter is at the maximum it rejects and leaves the
whole map unchanged. -/
theorem C1_rateLimiter_contract (now : Nat) (clientId : String)
    (m : List (String × RateEntry)) :
    (getAssoc m clientId = none →
      checkRateLimit now clientId m =
        (true, setAssoc m clientId ⟨1, now + hourMs⟩)) ∧
    (∀ e, getAssoc m clientId = some e → e.resetTime < now →
      checkRateLimit now clientId m =
        (true, setAssoc m clientId ⟨1, now + hourMs⟩)) ∧
    (∀ e, getAssoc m clientId = some e → now ≤ e.resetTime →
      e.count < MAX_DOWNLOADS_PER_HOUR →
      checkRateLimit now clientId m =
        (true, setAssoc m clientId ⟨e.count + 1, e.resetTime⟩) ∧
        e.count + 1 ≤ MAX_DOWNLOADS_PER_HOUR) ∧
    (∀ e, getAssoc m clientId = some e → now ≤ e.resetTime →
      MAX_DOWNLOADS_PER_HOUR ≤ e.count →
      checkRateLimit now clientId m = (false, m)) := by
  refine ⟨?_, ?_, ?_, ?_⟩
  · intro hm
    simp [checkRateLimit, hm]
  · intro e hm hlt
    simp [checkRateLimit, hm, hlt]
  · intro e hm hle hcnt
    have hcnt5 : e.count < 5 := by
      simpa [MAX_DOWNLOADS_PER_HOUR] using hcnt
    constructor
    · simp [checkRateLimit, hm, MAX_DOWNLOADS_PER_HOUR,
        Nat.not_lt.mpr hle, Nat.not_le.mpr hcnt5, hcnt5]
    · simp [MAX_DOWNLOADS_PER_HOUR]
      omega
  · intro e hm hle hcnt
    have hcnt5 : 5 ≤ e.count := by
      simpa [MAX_DOWNLOADS_PER_HOUR] using hcnt
    simp [checkRateLimit, hm, Nat.not_lt.mpr hle, MAX_DOWNLOADS_PER_HOUR, hcnt5]

/-- Witness for C1 at concrete inputs: fresh identity, live-window
increment, and at-maximum rejection. -/
theorem C1_rateLimiter_contract_witness :
    checkRateLimit 50 "alice" [] = (true, [("alice", ⟨1, 50 + hourMs⟩)]) ∧
    checkRateLimit 10 "alice" [("alice", ⟨2, 100⟩)] =
      (true, [("alice", ⟨3, 100⟩)]) ∧
    checkRateLimit 10 "alice" [("alice", ⟨5, 100⟩)] =
      (false, [("alice", ⟨5, 100⟩)]) := by
  refine ⟨?_, ?_, ?_⟩
  · have h := (C1_rateLimiter_contract 50 "alice" []).1 rfl
    simpa [setAssoc] using h
  · have h := ((C1_rateLimiter_contract 10 "alice" [("alice", ⟨2, 100⟩)]).2.2.1
      ⟨2, 100⟩ rfl (by decide) (by decide)).1
    simpa [setAssoc] using h
  · exact (C1_rateLimiter_contract 10 "alice" [("alice", ⟨5, 100⟩)]).2.2.2
      ⟨5, 100⟩ rfl (by decide) (by decide)

/-- Request times straddling a window boundary: one request anchors a
window at time 0, four more arrive just before it expires, five just
after. -/
def c5Times : List Nat :=
  [0, 3599996, 3599997, 3599998, 3599999,
   3600001, 3600002, 3600003, 3600004, 3600005]

/-- C5 fails as stated: the limiter uses a fixed window, not a rolling one.
All ten requests of `c5Times` are admitted, and nine of the admitted
timestamps (far more than 5) lie inside the single rolling 1-hour window
starting at 3599996; in particular the 6th attempt inside that rolling
window is admitted rather than rejected. -/
theorem C5_rolling_window_counterexample :
    admitFlags "alice" c5Times = List.replicate 10 true ∧
    ((admittedTimes "alice" c5Times).filter
        (fun t => decide (3599996 ≤ t ∧ t ≤ 3599996 + hourMs))).length = 9 := by
  constructor
  · decide
  · decide

/-- C5 amended: the limiter enforces a fixed per-client window — at most 5
requests are admitted against any single window instance (identified by its
stored expiry anchor), and a request arriving in a live window whose counter
has reached 5 is rejected with the rate-limit map left unchanged. -/
theorem C5_fixed_window_bound (clientId : String) (times : List Nat) (w : Nat)
    (now : Nat) (m : List (String × RateEntry)) (e : RateEntry) :
    countAdm (runAnnot clientId times []) w ≤ 5 ∧
    (getAssoc m clientId = some e → now ≤ e.resetTime → 5 ≤ e.count →
      checkRateLimit now clientId m = (false, m)) := by
  constructor
  · have h := countAdm_runAnnot_le clientId times [] w
    simpa [windowCap, getAssoc] using h
  · intro hm hle hcnt
    simp [checkRateLimit, hm, Nat.not_lt.mpr hle, MAX_DOWNLOADS_PER_HOUR, hcnt]

/-- Witness for C5 (amended) at concrete inputs. -/
theorem C5_fixed_window_bound_witness :
    countAdm (runAnnot "alice" c5Times []) 3600000 ≤ 5 ∧
    checkRateLimit 10 "alice" [("alice", ⟨5, 100⟩)] =
      (false, [("alice", ⟨5, 100⟩)]) := by
  have h := C5_fixed_window_bound "alice" c5Times 3600000 10
    [("alice", ⟨5, 100⟩)] ⟨5, 100⟩
  exact ⟨h.1, h.2 rfl (by decide) (by decide)⟩

/-! Section: progress parser (`parseProgress`, route.ts lines 140-152).

The route matches each stdout line against the regex
`\[download\]\s+(\d+\.?\d*)%\s+of\s+([^\s]+)\s+at\s+([^\s]+)\s+ETA\s+([^\s]+)`.
The embedding below is the deterministic equivalent of that regex under JS
leftmost-greedy semantics: every quantified piece is followed either by a
character its own class excludes (`\s+` by a non-space literal, `[^\s]+` by
`\s`) or by the end of the pattern, so greedy matching without backtracking
is exact; the only backtracking the number part `(\d+\.?\d*)%` could do
re-tests `%` against a digit or a dot and always fails, so requiring `%`
right after the maximal digit/dot/digit run is again exact.  `\s` is
modeled by its ASCII members (the downloader emits ASCII). -/

/-- ASCII members of the JS `\s` class. -/
def isWs (c : Char) : Bool :=
  (c = ' ') || (c = '\t') || (c = '\n') || (c = '\r') ||
  (c = '\x0b') || (c = '\x0c')

/-- A parsed progress record (`DownloadProgress`); `percentage` is the
`parseFloat` of the captured `\d+\.?\d*` token, which such tokens denote
exactly, modeled as a rational. -/
structure DownloadProgress where
  percentage : ℚ
  speed : String
  eta : String
  size : String
  deriving Repr, DecidableEq

/-- Value of a digit run. -/
def digitsToNat (l : List Char) : Nat :=
  l.foldl (fun acc c => acc * 10 + (c.toNat - 48)) 0

/-- Exact value of `intDigits ++ "." ++ fracDigits`. -/
def decToRat (intDigits fracDigits : List Char) : ℚ :=
  (digitsToNat intDigits : ℚ) +
    (digitsToNat fracDigits : ℚ) / ((10 : ℚ) ^ fracDigits.length)

/-- Consume an exact literal, returning the remainder. -/
def stripLit : List Char → List Char → Option (List Char)
  | [], l => some l
  | _ :: _, [] => none
  | p :: ps, c :: cs => if c = p then stripLit ps cs else none

/-- Consume a maximal nonempty run of characters satisfying `f`
(the greedy `X+` of the regex). -/
def takeRun (f : Char → Bool) (l : List Char) : Option (List Char × List Char) :=
  let tok := l.takeWhile f
  if tok.isEmpty then none else some (tok, l.dropWhile f)

/-- The number-and-percent segment `(\d+\.?\d*)%`: maximal digit run,
optional dot plus maximal digit run, then the literal `%`.  Returns the two
captured digit runs and the remainder after `%`. -/
def pctPart (l : List Char) : Option ((List Char × List Char) × List Char) :=
  (takeRun Char.isDigit l).bind fun dp =>
    match dp.2 with
    | [] => none
    | c :: rest =>
        if c = '.' then
          (stripLit ['%'] (rest.dropWhile Char.isDigit)).bind fun l4 =>
            some ((dp.1, rest.takeWhile Char.isDigit), l4)
        else
          (stripLit ['%'] (c :: rest)).bind fun l4 => some ((dp.1, []), l4)

/-- Whitespace `\s+` followed by an exact literal. -/
def wsThenLit (lit : List Char) (l : List Char) : Option (List Char) :=
  (takeRun isWs l).bind fun p => stripLit lit p.2

/-- Whitespace `\s+` followed by a captured `[^\s]+` token. -/
def wsThenTok (l : List Char) : Option (List Char × List Char) :=
  (takeRun isWs l).bind fun p => takeRun (fun c => !(isWs c)) p.2

/-- Attempt the whole regex at this exact position. -/
def matchProgressAt (l0 : List Char) : Option DownloadProgress :=
  (stripLit "[download]".toList l0).bind fun l1 =>
  (takeRun isWs l1).bind fun w1 =>
  (pctPart w1.2).bind fun pc =>
  (wsThenLit "of".toList pc.2).bind fun l6 =>
  (wsThenTok l6).bind fun sz =>
  (wsThenLit "at".toList sz.2).bind fun l10 =>
  (wsThenTok l10).bind fun sp =>
  (wsThenLit "ETA".toList sp.2).bind fun l14 =>
  (wsThenTok l14).bind fun et =>
  some ⟨decToRat pc.1.1 pc.1.2, ⟨sp.1⟩, ⟨et.1⟩, ⟨sz.1⟩⟩

/-- Scan positions left to right; the first (leftmost) success wins,
as for an unanchored JS regex. -/
def searchProgress : List Char → Option DownloadProgress
  | [] => none
  | c :: cs =>
      match matchProgressAt (c :: cs) with
      | some r => some r
      | none => searchProgress cs

/-- Function `parseProgress(line)` from route.ts. -/
def parseProgress (line : String) : Option DownloadProgress :=
  searchProgress line.toList

/-- Model of `line.includes(pat)` (substring test). -/
def containsSub (pat : List Char) : List Char → Bool
  | [] => pat.isEmpty
  | c :: tl => pat.isPrefixOf (c :: tl) || containsSub pat tl

/-- Model of `a.includes(b)` on strings. -/
def strIncludes (s pat : String) : Bool := containsSub pat.toList s.toList

/-! Section: shape predicates for progress lines. -/

/-- A nonempty whitespace run (`\s+`). -/
def WsRun (w : List Char) : Prop := w ≠ [] ∧ ∀ c ∈ w, isWs c = true

/-- A nonempty token without whitespace (`[^\s]+`). -/
def NonWsTok (t : List Char) : Prop := t ≠ [] ∧ ∀ c ∈ t, isWs c = false

/-- A nonempty digit run (`\d+`). -/
def DigitRun (d : List Char) : Prop := d ≠ [] ∧ ∀ c ∈ d, c.isDigit = true

/-- The optional fractional part of the percentage (`\.?\d*`): either
absent, or a dot followed by a (possibly empty) digit run. -/
def FracPart (fr : List Char) : Prop :=
  fr = [] ∨ ∃ fd, fr = '.' :: fd ∧ ∀ c ∈ fd, c.isDigit = true

/-- The first character (if any) does not satisfy `f`: the next piece of
the pattern stops a greedy run here. -/
def HeadStops (f : Char → Bool) : List Char → Prop
  | [] => True
  | c :: _ => f c = false

/-- Predicate: `l` contains the downloader progress pattern, and `r` is built from its
captured tokens: this is the line shape
`pre [download] \s+ (\d+\.?\d*) % \s+ of \s+ ([^\s]+) \s+ at \s+ ([^\s]+)
\s+ ETA \s+ ([^\s]+) rest`. -/
def ProgressShape (l : List Char) (r : DownloadProgress) : Prop :=
  ∃ pre w1 d1 fr w2 w3 size w4 w5 speed w6 w7 eta rest,
    l = pre ++ "[download]".toList ++ w1 ++ d1 ++ fr ++ ['%'] ++ w2 ++
        "of".toList ++ w3 ++ size ++ w4 ++ "at".toList ++ w5 ++ speed ++
        w6 ++ "ETA".toList ++ w7 ++ eta ++ rest ∧
    WsRun w1 ∧ WsRun w2 ∧ WsRun w3 ∧ WsRun w4 ∧ WsRun w5 ∧ WsRun w6 ∧
    WsRun w7 ∧ DigitRun d1 ∧
    (fr = [] ∨ ∃ fd, fr = '.' :: fd ∧ ∀ c ∈ fd, c.isDigit = true) ∧
    NonWsTok size ∧ NonWsTok speed ∧ NonWsTok eta ∧
    r = ⟨decToRat d1 fr.tail, ⟨speed⟩, ⟨eta⟩, ⟨size⟩⟩

/-! Section: helper lemmas about the matcher pieces. -/

lemma stripLit_append (p : List Char) : ∀ l, stripLit p (p ++ l) = some l := by
  induction p with
  | nil => intro l; rfl
  | cons c cs ih => intro l; simp [stripLit, ih]

lemma stripLit_sound (p : List Char) :
    ∀ l l2, stripLit p l = some l2 → l = p ++ l2 := by
  induction p with
  | nil =>
      intro l l2 h
      simpa [stripLit] using h
  | cons c cs ih =>
      intro l l2 h
      cases l with
      | nil => simp [stripLit] at h
      | cons a tl =>
          by_cases hc : a = c
          · subst hc
            simp only [stripLit, if_pos rfl] at h
            simpa using ih tl l2 h
          · simp [stripLit, hc] at h

lemma takeWhile_app (f : Char → Bool) (tok rest : List Char)
    (h2 : ∀ c ∈ tok, f c = true) (h3 : HeadStops f rest) :
    (tok ++ rest).takeWhile f = tok := by
  induction tok with
  | nil =>
      cases rest with
      | nil => rfl
      | cons c cs =>
          have h3c : f c = false := h3
          simp [List.takeWhile_cons, h3c]
  | cons a tl ih =>
      have ha : f a = true := h2 a (by simp)
      have ih2 := ih (fun c hc => h2 c (by simp [hc]))
      simp [List.takeWhile_cons, ha, ih2]

lemma dropWhile_app (f : Char → Bool) (tok rest : List Char)
    (h2 : ∀ c ∈ tok, f c = true) (h3 : HeadStops f rest) :
    (tok ++ rest).dropWhile f = rest := by
  induction tok with
  | nil =>
      cases rest with
      | nil => rfl
      | cons c cs =>
          have h3c : f c = false := h3
          simp [List.dropWhile_cons, h3c]
  | cons a tl ih =>
      have ha : f a = true := h2 a (by simp)
      have ih2 := ih (fun c hc => h2 c (by simp [hc]))
      simp [List.dropWhile_cons, ha, ih2]

lemma takeRun_app (f : Char → Bool) (tok rest : List Char)
    (h1 : tok ≠ []) (h2 : ∀ c ∈ tok, f c = true) (h3 : HeadStops f rest) :
    takeRun f (tok ++ rest) = some (tok, rest) := by
  simp [takeRun, takeWhile_app f tok rest h2 h3, dropWhile_app f tok rest h2 h3,
    List.isEmpty_iff, h1]

lemma headStops_dropWhile (f : Char → Bool) (l : List Char) :
    HeadStops f (l.dropWhile f) := by
  induction l with
  | nil => simp [HeadStops]
  | cons a tl ih =>
      by_cases ha : f a = true
      · simpa [List.dropWhile_cons, ha] using ih
      · simp only [Bool.not_eq_true] at ha
        simp [List.dropWhile_cons, ha, HeadStops]

lemma takeRun_sound (f : Char → Bool) (l tok rest : List Char)
    (h : takeRun f l = some (tok, rest)) :
    l = tok ++ rest ∧ tok ≠ [] ∧ (∀ c ∈ tok, f c = true) ∧ HeadStops f rest := by
  simp only [takeRun] at h
  by_cases he : (l.takeWhile f).isEmpty
  · simp [he] at h
  · rw [if_neg (by simpa using he)] at h
    have hpair : (l.takeWhile f, l.dropWhile f) = (tok, rest) :=
      Option.some_inj.mp h
    have htok : l.takeWhile f = tok := congrArg Prod.fst hpair
    have hrest : l.dropWhile f = rest := congrArg Prod.snd hpair
    refine ⟨?_, ?_, ?_, ?_⟩
    · rw [← htok, ← hrest]
      exact (List.takeWhile_append_dropWhile f l).symm
    · intro hbad
      rw [← htok] at hbad
      exact he (by simp [hbad])
    · intro c hc
      rw [← htok] at hc
      exact List.mem_takeWhile_imp hc
    · rw [← hrest]
      exact headStops_dropWhile f l

lemma isWs_eq_false_of_isDigit (c : Char) (h : c.isDigit = true) :
    isWs c = false := by
  by_contra hw
  simp only [Bool.not_eq_false] at hw
  simp only [isWs, Bool.or_eq_true, decide_eq_true_eq] at hw
  rcases hw with ((((h1 | h1) | h1) | h1) | h1) | h1 <;> subst h1 <;>
    exact absurd h (by decide)

lemma headStops_ws_of_digits (d X : List Char) (hd : DigitRun d) :
    HeadStops isWs (d ++ X) := by
  obtain ⟨hne, hall⟩ := hd
  cases d with
  | nil => exact absurd rfl hne
  | cons c tl =>
      have hc := hall c (by simp)
      simpa [HeadStops] using isWs_eq_false_of_isDigit c hc

lemma headStops_nonWs_of_ws (w X : List Char) (hw : WsRun w) :
    HeadStops (fun c => !(isWs c)) (w ++ X) := by
  obtain ⟨hne, hall⟩ := hw
  cases w with
  | nil => exact absurd rfl hne
  | cons c tl =>
      have hc := hall c (by simp)
      simp [HeadStops, hc]

lemma headStops_ws_of_nonWs (t X : List Char) (ht : NonWsTok t) :
    HeadStops isWs (t ++ X) := by
  obtain ⟨hne, hall⟩ := ht
  cases t with
  | nil => exact absurd rfl hne
  | cons c tl =>
      have hc := hall c (by simp)
      simp [HeadStops, hc]

lemma pctPart_pos (d1 X : List Char) (hd : DigitRun d1) :
    pctPart (d1 ++ (['%'] ++ X)) = some ((d1, []), X) := by
  have hrun := takeRun_app Char.isDigit d1 (['%'] ++ X) hd.1 hd.2
    (by simp [HeadStops])
  simp only [pctPart, hrun, Option.some_bind]
  have hs : stripLit ['%'] ('%' :: X) = some X := stripLit_append ['%'] X
  simp [hs]

lemma pctPart_pos_frac (d1 fd X : List Char) (hd : DigitRun d1)
    (hfd : ∀ c ∈ fd, c.isDigit = true) :
    pctPart (d1 ++ ('.' :: (fd ++ (['%'] ++ X)))) = some ((d1, fd), X) := by
  have hrun := takeRun_app Char.isDigit d1 ('.' :: (fd ++ (['%'] ++ X)))
    hd.1 hd.2 (by simp [HeadStops])
  simp only [pctPart, hrun, Option.some_bind]
  rw [if_pos trivial]
  have hdrop : (fd ++ (['%'] ++ X)).dropWhile Char.isDigit = ['%'] ++ X :=
    dropWhile_app Char.isDigit fd (['%'] ++ X) hfd (by simp [HeadStops])
  have htake : (fd ++ (['%'] ++ X)).takeWhile Char.isDigit = fd :=
    takeWhile_app Char.isDigit fd (['%'] ++ X) hfd (by simp [HeadStops])
  rw [hdrop, htake]
  have hs : stripLit ['%'] ('%' :: X) = some X := stripLit_append ['%'] X
  simp [hs]

lemma pctPart_pos_gen (d1 fr X : List Char) (hd : DigitRun d1)
    (hfr : FracPart fr) :
    pctPart (d1 ++ (fr ++ (['%'] ++ X))) = some ((d1, fr.tail), X) := by
  rcases hfr with hnil | ⟨fd, hfd_eq, hfd⟩
  · subst hnil
    simpa using pctPart_pos d1 X hd
  · subst hfd_eq
    simpa using pctPart_pos_frac d1 fd X hd hfd

lemma wsThenLit_pos (lit w X : List Char) (hw : WsRun w)
    (hstop : HeadStops isWs (lit ++ X)) :
    wsThenLit lit (w ++ (lit ++ X)) = some X := by
  have hrun := takeRun_app isWs w (lit ++ X) hw.1 hw.2 hstop
  simp [wsThenLit, hrun, stripLit_append]

lemma wsThenTok_pos (w tok X : List Char) (hw : WsRun w) (htok : NonWsTok tok)
    (hstop : HeadStops (fun c => !(isWs c)) X) :
    wsThenTok (w ++ (tok ++ X)) = some (tok, X) := by
  have hrun := takeRun_app isWs w (tok ++ X) hw.1 hw.2
    (headStops_ws_of_nonWs tok X htok)
  have hrun2 := takeRun_app (fun c => !(isWs c)) tok X htok.1
    (fun c hc => by simp [htok.2 c hc]) hstop
  simp [wsThenTok, hrun, hrun2]

lemma headStops_lit (f : Char → Bool) (c : Char) (cs X : List Char)
    (h : f c = false) : HeadStops f (c :: cs ++ X) := h

/-- The canonical progress line, written right-associated:
`[download]` ␣ percent (integer digits then optional fraction) `%` ␣ `of`
␣ size ␣ `at` ␣ speed ␣ `ETA` ␣ eta. -/
def progressLineChars (w1 d1 fr w2 w3 size w4 w5 speed w6 w7 eta trailing :
    List Char) : List Char :=
  "[download]".toList ++ (w1 ++ (d1 ++ (fr ++ (['%'] ++ (w2 ++ ("of".toList ++
    (w3 ++ (size ++ (w4 ++ ("at".toList ++ (w5 ++ (speed ++ (w6 ++
    ("ETA".toList ++ (w7 ++ (eta ++ trailing))))))))))))))))

lemma matchProgressAt_pos (w1 d1 fr w2 w3 size w4 w5 speed w6 w7 eta trailing :
      List Char)
    (hw1 : WsRun w1) (hw2 : WsRun w2) (hw3 : WsRun w3) (hw4 : WsRun w4)
    (hw5 : WsRun w5) (hw6 : WsRun w6) (hw7 : WsRun w7)
    (hd : DigitRun d1) (hfr : FracPart fr)
    (hsize : NonWsTok size) (hspeed : NonWsTok speed)
    (heta : NonWsTok eta)
    (htr : HeadStops (fun c => !(isWs c)) trailing) :
    matchProgressAt
        (progressLineChars w1 d1 fr w2 w3 size w4 w5 speed w6 w7 eta
          trailing) =
      some ⟨decToRat d1 fr.tail, ⟨speed⟩, ⟨eta⟩, ⟨size⟩⟩ := by
  simp only [progressLineChars, matchProgressAt]
  rw [stripLit_append]
  simp only [Option.some_bind]
  rw [takeRun_app isWs w1 _ hw1.1 hw1.2 (headStops_ws_of_digits d1 _ hd)]
  simp only [Option.some_bind]
  rw [pctPart_pos_gen d1 fr _ hd hfr]
  simp only [Option.some_bind]
  rw [wsThenLit_pos "of".toList w2 _ hw2
    (headStops_lit isWs 'o' ['f'] _ (by decide))]
  simp only [Option.some_bind]
  rw [wsThenTok_pos w3 size _ hw3 hsize (headStops_nonWs_of_ws w4 _ hw4)]
  simp only [Option.some_bind]
  rw [wsThenLit_pos "at".toList w4 _ hw4
    (headStops_lit isWs 'a' ['t'] _ (by decide))]
  simp only [Option.some_bind]
  rw [wsThenTok_pos w5 speed _ hw5 hspeed (headStops_nonWs_of_ws w6 _ hw6)]
  simp only [Option.some_bind]
  rw [wsThenLit_pos "ETA".toList w6 _ hw6
    (headStops_lit isWs 'E' ['T', 'A'] _ (by decide))]
  simp only [Option.some_bind]
  rw [wsThenTok_pos w7 eta _ hw7 heta htr]
  simp only [Option.some_bind]

lemma matchProgressAt_ne_bracket (c : Char) (cs : List Char) (h : c ≠ '[') :
    matchProgressAt (c :: cs) = none := by
  have hd : stripLit ['[', 'd', 'o', 'w', 'n', 'l', 'o', 'a', 'd', ']']
      (c :: cs) = none := by
    simp [stripLit, h]
  simp [matchProgressAt, hd]

lemma searchProgress_skip (pre : List Char) (l : List Char)
    (h : ∀ c ∈ pre, c ≠ '[') :
    searchProgress (pre ++ l) = searchProgress l := by
  induction pre with
  | nil => rfl
  | cons c tl ih =>
      have hc : c ≠ '[' := h c (by simp)
      have ih2 := ih (fun d hd => h d (by simp [hd]))
      simp [searchProgress, matchProgressAt_ne_bracket c _ hc, ih2]

lemma pctPart_sound (l d1 frac l4 : List Char)
    (h : pctPart l = some ((d1, frac), l4)) :
    ∃ fr, l = d1 ++ fr ++ ['%'] ++ l4 ∧ DigitRun d1 ∧ fr.tail = frac ∧
      (fr = [] ∨ ∃ fd, fr = '.' :: fd ∧ ∀ c ∈ fd, c.isDigit = true) := by
  simp only [pctPart] at h
  rw [Option.bind_eq_some] at h
  obtain ⟨dp, hdp, h⟩ := h
  obtain ⟨d1x, dp2⟩ := dp
  dsimp only at h
  obtain ⟨hl, hne, hdig, hstop⟩ := takeRun_sound Char.isDigit l d1x dp2 hdp
  cases dp2 with
  | nil => simp at h
  | cons c rest =>
      dsimp only at h
      by_cases hc : c = '.'
      · subst hc
        rw [if_pos rfl] at h
        rw [Option.bind_eq_some] at h
        obtain ⟨l4x, hstrip, heq⟩ := h
        simp only [Option.some_inj, Prod.mk.injEq] at heq
        obtain ⟨⟨hd1, hfrac⟩, hl4⟩ := heq
        subst hd1; subst hl4
        have hdw := stripLit_sound ['%'] _ _ hstrip
        refine ⟨'.' :: rest.takeWhile Char.isDigit, ?_, ⟨hne, hdig⟩, ?_, ?_⟩
        · rw [hl]
          conv =>
            lhs
            rw [← List.takeWhile_append_dropWhile Char.isDigit rest, hdw]
          simp
        · simpa using hfrac
        · exact Or.inr ⟨rest.takeWhile Char.isDigit, rfl,
            fun c hcm => List.mem_takeWhile_imp hcm⟩
      · simp only [if_neg hc] at h
        rw [Option.bind_eq_some] at h
        obtain ⟨l4x, hstrip, heq⟩ := h
        simp only [Option.some_inj, Prod.mk.injEq] at heq
        obtain ⟨⟨hd1, hfrac⟩, hl4⟩ := heq
        subst hd1; subst hl4
        have hdw := stripLit_sound ['%'] _ _ hstrip
        refine ⟨[], ?_, ⟨hne, hdig⟩, ?_, Or.inl rfl⟩
        · rw [hl, hdw]
          simp
        · simpa using hfrac

lemma wsThenLit_sound (lit l l2 : List Char) (h : wsThenLit lit l = some l2) :
    ∃ w, l = w ++ lit ++ l2 ∧ WsRun w := by
  simp only [wsThenLit] at h
  rw [Option.bind_eq_some] at h
  obtain ⟨p, hp, hstrip⟩ := h
  obtain ⟨ptok, prest⟩ := p
  obtain ⟨hl, hne, hws, _⟩ := takeRun_sound isWs l ptok prest hp
  have h2 := stripLit_sound lit prest l2 hstrip
  exact ⟨ptok, by simp [hl, h2, List.append_assoc], ⟨hne, hws⟩⟩

lemma wsThenTok_sound (l tok l2 : List Char)
    (h : wsThenTok l = some (tok, l2)) :
    ∃ w, l = w ++ tok ++ l2 ∧ WsRun w ∧ NonWsTok tok := by
  simp only [wsThenTok] at h
  rw [Option.bind_eq_some] at h
  obtain ⟨p, hp, htok⟩ := h
  obtain ⟨ptok, prest⟩ := p
  obtain ⟨hl, hne, hws, _⟩ := takeRun_sound isWs l ptok prest hp
  obtain ⟨hl2, hne2, hnw, _⟩ :=
    takeRun_sound (fun c => !(isWs c)) prest tok l2 htok
  refine ⟨ptok, by simp [hl, hl2, List.append_assoc], ⟨hne, hws⟩,
    ⟨hne2, fun c hc => by simpa using hnw c hc⟩⟩

lemma matchProgressAt_sound (l : List Char) (r : DownloadProgress)
    (h : matchProgressAt l = some r) : ProgressShape l r := by
  simp only [matchProgressAt] at h
  rw [Option.bind_eq_some] at h
  obtain ⟨l1, h1, h⟩ := h
  have e1 := stripLit_sound _ _ _ h1
  rw [Option.bind_eq_some] at h
  obtain ⟨w1p, hw1p, h⟩ := h
  obtain ⟨w1, l2⟩ := w1p
  obtain ⟨e2, hw1ne, hw1ws, _⟩ := takeRun_sound isWs l1 w1 l2 hw1p
  rw [Option.bind_eq_some] at h
  obtain ⟨pc, hpc, h⟩ := h
  obtain ⟨⟨d1, frac⟩, l4⟩ := pc
  have hpc2 : pctPart l2 = some ((d1, frac), l4) := hpc
  obtain ⟨fr, e3, hd1, hfrtail, hfr⟩ := pctPart_sound l2 d1 frac l4 hpc2
  rw [Option.bind_eq_some] at h
  obtain ⟨l6, hof, h⟩ := h
  have hof2 : wsThenLit "of".toList l4 = some l6 := hof
  obtain ⟨w2, e4, hw2⟩ := wsThenLit_sound _ _ _ hof2
  rw [Option.bind_eq_some] at h
  obtain ⟨szp, hsz, h⟩ := h
  obtain ⟨size, l8⟩ := szp
  obtain ⟨w3, e5, hw3, hsize⟩ := wsThenTok_sound l6 size l8 hsz
  rw [Option.bind_eq_some] at h
  obtain ⟨l10, hat, h⟩ := h
  have hat2 : wsThenLit "at".toList l8 = some l10 := hat
  obtain ⟨w4, e6, hw4⟩ := wsThenLit_sound _ _ _ hat2
  rw [Option.bind_eq_some] at h
  obtain ⟨spp, hsp, h⟩ := h
  obtain ⟨speed, l12⟩ := spp
  obtain ⟨w5, e7, hw5, hspeed⟩ := wsThenTok_sound l10 speed l12 hsp
  rw [Option.bind_eq_some] at h
  obtain ⟨l14, heta, h⟩ := h
  have heta2 : wsThenLit "ETA".toList l12 = some l14 := heta
  obtain ⟨w6, e8, hw6⟩ := wsThenLit_sound _ _ _ heta2
  rw [Option.bind_eq_some] at h
  obtain ⟨etp, het, h⟩ := h
  obtain ⟨eta, rest⟩ := etp
  obtain ⟨w7, e9, hw7, hetatok⟩ := wsThenTok_sound l14 eta rest het
  have hr : r = ⟨decToRat d1 frac, ⟨speed⟩, ⟨eta⟩, ⟨size⟩⟩ :=
    (Option.some_inj.mp h).symm
  refine ⟨[], w1, d1, fr, w2, w3, size, w4, w5, speed, w6, w7, eta, rest,
    ?_, ⟨hw1ne, hw1ws⟩, hw2, hw3, hw4, hw5, hw6, hw7, hd1, hfr,
    hsize, hspeed, hetatok, ?_⟩
  · subst e1; subst e2; subst e3; subst e4; subst e5; subst e6; subst e7
    subst e8; subst e9
    simp [List.append_assoc]
  · rw [hr, hfrtail]

lemma progressShape_cons (c : Char) (l : List Char) (r : DownloadProgress)
    (h : ProgressShape l r) : ProgressShape (c :: l) r := by
  obtain ⟨pre, w1, d1, fr, w2, w3, size, w4, w5, speed, w6, w7, eta, rest,
    heq, hs⟩ := h
  exact ⟨c :: pre, w1, d1, fr, w2, w3, size, w4, w5, speed, w6, w7, eta, rest,
    by simp [heq], hs⟩

lemma searchProgress_sound (l : List Char) (r : DownloadProgress)
    (h : searchProgress l = some r) : ProgressShape l r := by
  induction l with
  | nil => simp [searchProgress] at h
  | cons c cs ih =>
      simp only [searchProgress] at h
      cases hm : matchProgressAt (c :: cs) with
      | some r0 =>
          rw [hm] at h
          have : r0 = r := Option.some_inj.mp h
          subst this
          exact matchProgressAt_sound _ _ hm
      | none =>
          rw [hm] at h
          exact progressShape_cons c cs r (ih h)

lemma searchProgress_cons_match (c : Char) (cs : List Char)
    (r : DownloadProgress) (h : matchProgressAt (c :: cs) = some r) :
    searchProgress (c :: cs) = some r := by
  simp [searchProgress, h]

/-- C9: the progress parser is a pure deterministic function of the single
line — the same line always yields the same result; every line consisting of
a bracket-free prefix followed by the downloader pattern (`[download]`,
whitespace, a digit-run percentage with an optional `.`-led fractional digit
run, `%`, `of`, a size token, `at`, a speed token, `ETA`, an ETA token)
parses to the record holding exactly those four captured fields, the
percentage being the exact decimal value; and conversely every line on which
the parser returns a record decomposes into that pattern with the record
built from its captured tokens — so every line not containing the pattern
yields none. -/
theorem C9_parseProgress_contract :
    (∀ line : String, parseProgress line = parseProgress line) ∧
    (∀ pre w1 d1 fr w2 w3 size w4 w5 speed w6 w7 eta trailing : List Char,
      (∀ c ∈ pre, c ≠ '[') →
      WsRun w1 → WsRun w2 → WsRun w3 → WsRun w4 → WsRun w5 → WsRun w6 →
      WsRun w7 → DigitRun d1 → FracPart fr →
      NonWsTok size → NonWsTok speed →
      NonWsTok eta → HeadStops (fun c => !(isWs c)) trailing →
      parseProgress
          ⟨pre ++ progressLineChars w1 d1 fr w2 w3 size w4 w5 speed w6 w7 eta
            trailing⟩ =
        some ⟨decToRat d1 fr.tail, ⟨speed⟩, ⟨eta⟩, ⟨size⟩⟩) ∧
    (∀ (line : String) (r : DownloadProgress),
      parseProgress line = some r → ProgressShape line.toList r) := by
  refine ⟨fun _ => rfl, ?_, ?_⟩
  · intro pre w1 d1 fr w2 w3 size w4 w5 speed w6 w7 eta trailing hpre hw1 hw2
      hw3 hw4 hw5 hw6 hw7 hd hfr hsize hspeed heta htr
    show searchProgress
        (pre ++ progressLineChars w1 d1 fr w2 w3 size w4 w5 speed w6 w7 eta
          trailing) = _
    rw [searchProgress_skip pre _ hpre]
    have hm := matchProgressAt_pos w1 d1 fr w2 w3 size w4 w5 speed w6 w7 eta
      trailing hw1 hw2 hw3 hw4 hw5 hw6 hw7 hd hfr hsize hspeed heta htr
    have hcons : progressLineChars w1 d1 fr w2 w3 size w4 w5 speed w6 w7 eta
        trailing =
      '[' :: ("download]".toList ++ (w1 ++ (d1 ++ (fr ++ (['%'] ++ (w2 ++
        ("of".toList ++ (w3 ++ (size ++ (w4 ++ ("at".toList ++ (w5 ++
        (speed ++ (w6 ++ ("ETA".toList ++ (w7 ++
        (eta ++ trailing))))))))))))))))) := rfl
    rw [hcons] at hm ⊢
    exact searchProgress_cons_match _ _ _ hm
  · intro line r h
    exact searchProgress_sound line.toList r h

/-- Witness for C9 on a concrete downloader line with a fractional
percentage. -/
theorem C9_parseProgress_contract_witness :
    parseProgress "[download] 50.5% of 10MiB at 1MiB/s ETA 00:42" =
      some ⟨101 / 2, "1MiB/s", "00:42", "10MiB"⟩ := by
  have h := C9_parseProgress_contract.2.1 [] [' '] ['5', '0'] ['.', '5']
    [' '] [' '] "10MiB".toList [' '] [' '] "1MiB/s".toList [' '] [' ']
    "00:42".toList []
    (by simp) ⟨by decide, by decide⟩ ⟨by decide, by decide⟩
    ⟨by decide, by decide⟩ ⟨by decide, by decide⟩ ⟨by decide, by decide⟩
    ⟨by decide, by decide⟩ ⟨by decide, by decide⟩ ⟨by decide, by decide⟩
    (Or.inr ⟨['5'], rfl, by decide⟩)
    ⟨by decide, by decide⟩ ⟨by decide, by decide⟩ ⟨by decide, by decide⟩
    trivial
  simp only [List.tail_cons] at h
  have hval : decToRat ['5', '0'] ['5'] = 101 / 2 := by
    have h50 : digitsToNat ['5', '0'] = 50 := by decide
    have h5 : digitsToNat ['5'] = 5 := by decide
    simp only [decToRat, h50, h5, List.length_cons, List.length_nil]
    norm_num
  rw [hval] at h
  exact h

/-! Section: filesystem model.  All artifacts live in the single directory
`/tmp/youtube-downloads`, so a file path is identified with its file name;
the directory is an association list from name to contents (bytes as
naturals).  `readdirSync` is the list of names, `statSync(..).size` the
length of the contents, `existsSync` membership, `unlinkSync` removal. -/

/-- The artifact directory. -/
abbrev Fs := List (String × List Nat)

/-- Model of JS `s.startsWith(pre)`. -/
def jsStartsWith (s pre : String) : Bool := pre.toList.isPrefixOf s.toList

/-- Model of JS `s.replace(pat, '')` with a string pattern: removes the
first occurrence of `pat`, if any. -/
def replaceOnceL (pat : List Char) : List Char → List Char
  | [] => []
  | c :: tl =>
      if pat.isPrefixOf (c :: tl) then (c :: tl).drop pat.length
      else c :: replaceOnceL pat tl

/-- String wrapper for `replaceOnceL`. -/
def jsReplaceOnce (s pat : String) : String := ⟨replaceOnceL pat.toList s.toList⟩

/-! Section: cleanup scheduler (`scheduleFileCleanup`, route.ts lines
154-169, and the timer-clearing code of `DELETE`, lines 395-400). -/

/-- Retention delay: `3 * 60 * 1000` ms (3 minutes). -/
def cleanupDelayMs : Nat := 3 * 60 * 1000

/-- One `setTimeout` timer created by `scheduleFileCleanup`.  A timer is
pending (will still fire) while neither `cancelled` (`clearTimeout`) nor
`fired` is set. -/
structure Timer where
  tid : Nat
  filePath : String
  jobId : String
  fireAt : Nat
  cancelled : Bool
  fired : Bool
  deriving Repr, DecidableEq

/-- Cleanup bookkeeping: every timer created so far, the
`fileCleanupTimers` map (job id to timer id), and the id counter. -/
structure CleanupState where
  timers : List Timer
  entries : List (String × Nat)
  nextTid : Nat
  deriving Repr, DecidableEq

/-- No cleanup timers yet. -/
def emptyCleanup : CleanupState := ⟨[], [], 0⟩

/-- Function `scheduleFileCleanup(filePath, downloadId)` from route.ts:
creates a 3-minute timer and stores its id in `fileCleanupTimers`.  The
`Map.set` replaces any existing entry for the id, but the code never calls
`clearTimeout` on the prior timer, so that timer stays pending. -/
def scheduleFileCleanup (filePath downloadId : String) (now : Nat)
    (cs : CleanupState) : CleanupState :=
  { timers := cs.timers ++
      [⟨cs.nextTid, filePath, downloadId, now + cleanupDelayMs, false, false⟩],
    entries := setAssoc cs.entries downloadId cs.nextTid,
    nextTid := cs.nextTid + 1 }

/-- The timer callback (route.ts lines 156-166): if the file still exists
it is unlinked, then the map entry is deleted; both sit in one `try`, so a
thrown `unlinkSync` (modeled by `unlinkErr`) skips the entry deletion (the
`catch` only logs).  A missing file skips the unlink and is not an error.
Returns the updated directory and cleanup state.
`markFired` marks the timer with id `tid0` as having run. -/
def markFired (tid0 : Nat) (u : Timer) : Timer :=
  if u.tid = tid0 then { u with fired := true } else u

/-- Mark the timer with id `tid0` cancelled (`clearTimeout`). -/
def markCancelled (tid0 : Nat) (u : Timer) : Timer :=
  if u.tid = tid0 then { u with cancelled := true } else u

def fireCleanupTimer (t : Timer) (fs : Fs) (cs : CleanupState)
    (unlinkErr : Bool) : Fs × CleanupState :=
  let cs1 : CleanupState := { cs with timers := cs.timers.map (markFired t.tid) }
  if (getAssoc fs t.filePath).isSome then
    if unlinkErr then (fs, cs1)
    else (delAssoc fs t.filePath,
      { cs1 with entries := delAssoc cs1.entries t.jobId })
  else
    (fs, { cs1 with entries := delAssoc cs1.entries t.jobId })

/-- The timer-clearing branch of the `DELETE` handler (route.ts lines
395-400): if `fileCleanupTimers` holds an entry for the id, `clearTimeout`
its timer and delete the entry. -/
def clearCleanupTimer (downloadId : String) (cs : CleanupState) :
    CleanupState :=
  match getAssoc cs.entries downloadId with
  | none => cs
  | some tid =>
      { timers := cs.timers.map (markCancelled tid)
        entries := delAssoc cs.entries downloadId
        nextTid := cs.nextTid }

/-! Section: download orchestrator (`POST` stream handlers and `DELETE`,
route.ts lines 171-409), embedded as a per-job transition system.  Distinct
jobs have distinct ids and the global maps are keyed by id, so the per-job
projection of `activeDownloads` is the flag `active` and the per-job view
of the SSE controller is `ctrlClosed` plus the ordered list of events
enqueued (`events`).  An `enqueue` on an already-closed controller throws
inside the event handler; observationally no event is appended and the
only statements it can skip are a redundant `controller.close()` or an
`activeDownloads.delete` that is already a no-op (the stream only closes
in handlers that also clear the entry), so it is modeled as a no-op.  The
complete event's payload renders the measured byte size as a fixed-point
megabyte string and a download URL derived from the id and filename; the
event here carries the measured byte count and the derived filename, from
which that presentation is computed. -/

/-- Lifecycle events published on a job's SSE stream as `data:` frames. -/
inductive Ev where
  | started
  | progress (p : DownloadProgress)
  | processing
  | complete (filename : String) (sizeBytes : Nat)
  | error (msg : String)
  deriving Repr, DecidableEq

/-- JS template rendering of a process exit code (`null` when the process
was terminated by a signal). -/
def codeStr : Option Nat → String
  | none => "null"
  | some n => toString n

/-- Per-job orchestrator state. -/
structure JobState where
  jobId : String
  active : Bool
  killed : Bool
  procClosed : Bool
  ctrlClosed : Bool
  events : List Ev
  cleanup : CleanupState
  deriving Repr, DecidableEq

/-- State right after the `POST` handler spawned the process, registered
the job and enqueued the `started` event (route.ts lines 236-248). -/
def initJob (id : String) : JobState :=
  ⟨id, true, false, false, false, [Ev.started], emptyCleanup⟩

/-- Model of `controller.enqueue` of one event. -/
def enqueueEv (e : Ev) (s : JobState) : JobState :=
  if s.ctrlClosed then s else { s with events := s.events ++ [e] }

/-- Model of `controller.enqueue` followed by `controller.close()`. -/
def enqueueClose (e : Ev) (s : JobState) : JobState :=
  if s.ctrlClosed then s
  else { s with events := s.events ++ [e], ctrlClosed := true }

/-- The stdout `data` handler for one trimmed nonempty line (route.ts lines
250-278): publish a progress event when the line parses, and a processing
event when the line carries the 100% or already-downloaded marker. -/
def onStdoutLine (line : String) (s : JobState) : JobState :=
  let s1 := match parseProgress line with
    | some p => enqueueEv (Ev.progress p) s
    | none => s
  if strIncludes line "[download] 100%" ||
      strIncludes line "has already been downloaded" then
    enqueueEv Ev.processing s1
  else s1

/-- The stderr `data` handler (route.ts lines 280-294): on an `ERROR`
marker, publish a terminal error, close the stream and deregister the job
(when the controller is already closed the enqueue throws and the rest of
the handler is skipped; `active` is already false then). -/
def onStderrChunk (chunk : String) (s : JobState) : JobState :=
  if strIncludes chunk "ERROR" then
    if s.ctrlClosed then s
    else { s with events := s.events ++ [Ev.error ("Download failed: " ++ chunk)],
                  ctrlClosed := true, active := false }
  else s

/-- The process `error` handler (route.ts lines 352-361): spawn failure. -/
def onSpawnError (msg : String) (s : JobState) : JobState :=
  enqueueClose (Ev.error ("Failed to start download: " ++ msg))
    { s with active := false }

/-- The process `close` handler (route.ts lines 296-350).  `fs` is the
artifact directory at the moment of the `readdirSync`; `now` the clock when
a cleanup timer is scheduled.  On a zero exit code the first file whose
name starts with the job id is taken as the artifact; the display filename
strips the first occurrence of `id + "."`; the cleanup timer is scheduled
before the complete event is enqueued.  On any other exit code (including
`null` after a kill) a terminal error is published. -/
def onClose (code : Option Nat) (fs : Fs) (now : Nat) (s : JobState) :
    JobState :=
  let s0 := { s with active := false, procClosed := true }
  match code with
  | some 0 =>
      match (fs.map Prod.fst).find? (fun f => jsStartsWith f s.jobId) with
      | some file =>
          let bytes := (getAssoc fs file).getD []
          let s1 := { s0 with
            cleanup := scheduleFileCleanup file s.jobId now s0.cleanup }
          enqueueClose
            (Ev.complete (jsReplaceOnce file (s.jobId ++ ".")) bytes.length) s1
      | none => enqueueClose (Ev.error "Downloaded file not found") s0
  | _ =>
      enqueueClose (Ev.error ("Download failed with code " ++ codeStr code)) s0

/-- The `DELETE` handler (route.ts lines 381-409) for this job's id: when
the job is registered, kill the process, deregister it, and clear any
pending cleanup timer; otherwise a 404 no-op. -/
def onCancel (s : JobState) : JobState :=
  if s.active then
    { s with active := false, killed := true,
             cleanup := clearCleanupTimer s.jobId s.cleanup }
  else s

/-- External stimuli of one job. -/
inductive Act where
  | stdoutLine (line : String)
  | stderrChunk (chunk : String)
  | spawnError (msg : String)
  | procExit (code : Option Nat) (fs : Fs) (now : Nat)
  | cancel

/-- One transition. -/
def step (s : JobState) : Act → JobState
  | Act.stdoutLine line => onStdoutLine line s
  | Act.stderrChunk c => onStderrChunk c s
  | Act.spawnError m => onSpawnError m s
  | Act.procExit code fs now => onClose code fs now s
  | Act.cancel => onCancel s

/-- Run a stimulus sequence. -/
def run (s : JobState) : List Act → JobState
  | [] => s
  | a :: rest => run (step s a) rest

/-- Trace validity: stream data and the exit event can only arrive while
the process has not yet been observed to close, the close event is unique,
and a process that was sent SIGTERM exits by signal, reported with a null
exit code. -/
def ValidFrom : JobState → List Act → Prop
  | _, [] => True
  | s, a :: rest =>
      (match a with
       | Act.stdoutLine _ => s.procClosed = false
       | Act.stderrChunk _ => s.procClosed = false
       | Act.spawnError _ => s.procClosed = false
       | Act.procExit code _ _ =>
           s.procClosed = false ∧ (s.killed = true → code = none)
       | Act.cancel => True) ∧
      ValidFrom (step s a) rest

/-- Event-class tests. -/
def isStartedEv : Ev → Bool
  | Ev.started => true
  | _ => false

def isProgressEv : Ev → Bool
  | Ev.progress _ => true
  | _ => false

def isProcessingEv : Ev → Bool
  | Ev.processing => true
  | _ => false

def isCompleteEv : Ev → Bool
  | Ev.complete _ _ => true
  | _ => false

def isErrorEv : Ev → Bool
  | Ev.error _ => true
  | _ => false

def isTerminalEv (e : Ev) : Bool := isCompleteEv e || isErrorEv e

/-- Marker test of the stdout handler. -/
def isMarkerLine (line : String) : Bool :=
  strIncludes line "[download] 100%" ||
    strIncludes line "has already been downloaded"

/-- The stream discipline: exactly one `started` event, and a terminal
event exactly when the controller has been closed, in which case it is the
last event. -/
def StreamInv (s : JobState) : Prop :=
  s.events.countP isStartedEv = 1 ∧
  (s.ctrlClosed = false → s.events.countP isTerminalEv = 0) ∧
  (s.ctrlClosed = true →
    s.events.countP isTerminalEv = 1 ∧
    ∃ e, s.events.getLast? = some e ∧ isTerminalEv e = true)

lemma streamInv_of_eq (s t : JobState) (he : s.events = t.events)
    (hc : s.ctrlClosed = t.ctrlClosed) (h : StreamInv s) : StreamInv t := by
  unfold StreamInv at h ⊢
  rw [← he, ← hc]
  exact h

lemma streamInv_enqueueEv (e : Ev) (s : JobState)
    (hst : isStartedEv e = false) (hterm : isTerminalEv e = false)
    (h : StreamInv s) : StreamInv (enqueueEv e s) := by
  unfold enqueueEv
  by_cases hc : s.ctrlClosed
  · simpa [hc] using h
  · obtain ⟨h1, h2, h3⟩ := h
    simp only [hc, if_neg, Bool.false_eq_true, if_false]
    refine ⟨?_, ?_, ?_⟩
    · simp [List.countP_append, h1, hst, List.countP_cons]
    · intro _
      have := h2 (by simpa using hc)
      simp [List.countP_append, this, hterm, List.countP_cons]
    · intro hbad
      exact absurd (by simpa using hbad) hc

lemma streamInv_enqueueClose (e : Ev) (s : JobState)
    (hst : isStartedEv e = false) (hterm : isTerminalEv e = true)
    (h : StreamInv s) : StreamInv (enqueueClose e s) := by
  unfold enqueueClose
  by_cases hc : s.ctrlClosed
  · simpa [hc] using h
  · obtain ⟨h1, h2, h3⟩ := h
    have hz := h2 (by simpa using hc)
    simp only [hc, if_neg, Bool.false_eq_true, if_false]
    refine ⟨?_, ?_, ?_⟩
    · simp [List.countP_append, h1, hst, List.countP_cons]
    · intro hbad
      simp at hbad
    · intro _
      refine ⟨by simp [List.countP_append, hz, hterm, List.countP_cons], e,
        ?_, hterm⟩
      simp [List.getLast?_concat]

lemma streamInv_step (s : JobState) (a : Act) (h : StreamInv s) :
    StreamInv (step s a) := by
  cases a with
  | stdoutLine line =>
      show StreamInv (onStdoutLine line s)
      unfold onStdoutLine
      have h1 : StreamInv (match parseProgress line with
          | some p => enqueueEv (Ev.progress p) s
          | none => s) := by
        cases parseProgress line with
        | some p => exact streamInv_enqueueEv _ s rfl rfl h
        | none => exact h
      by_cases hm : (strIncludes line "[download] 100%" ||
          strIncludes line "has already been downloaded") = true
      · rw [if_pos hm]
        exact streamInv_enqueueEv _ _ rfl rfl h1
      · rw [if_neg hm]
        exact h1
  | stderrChunk c =>
      show StreamInv (onStderrChunk c s)
      unfold onStderrChunk
      by_cases he : strIncludes c "ERROR" = true
      · rw [if_pos he]
        by_cases hc : s.ctrlClosed
        · simpa [hc] using h
        · have h2 := streamInv_enqueueClose
            (Ev.error ("Download failed: " ++ c)) s rfl rfl h
          refine streamInv_of_eq _ _ ?_ ?_ h2 <;>
            simp [enqueueClose, hc, if_neg]
      · rw [if_neg he]
        exact h
  | spawnError m =>
      show StreamInv (onSpawnError m s)
      unfold onSpawnError
      have h0 : StreamInv { s with active := false } := by
        exact streamInv_of_eq s _ rfl rfl h
      exact streamInv_enqueueClose _ _ rfl rfl h0
  | procExit code fs now =>
      show StreamInv (onClose code fs now s)
      unfold onClose
      have h0 : StreamInv { s with active := false, procClosed := true } :=
        streamInv_of_eq s _ rfl rfl h
      cases code with
      | none => exact streamInv_enqueueClose _ _ rfl rfl h0
      | some n =>
          cases n with
          | zero =>
              cases (fs.map Prod.fst).find? (fun f => jsStartsWith f s.jobId) with
              | some file =>
                  refine streamInv_enqueueClose _ _ rfl rfl ?_
                  exact streamInv_of_eq _ _ rfl rfl h0
              | none => exact streamInv_enqueueClose _ _ rfl rfl h0
          | succ k => exact streamInv_enqueueClose _ _ rfl rfl h0
  | cancel =>
      show StreamInv (onCancel s)
      unfold onCancel
      by_cases ha : s.active
      · rw [if_pos ha]
        exact streamInv_of_eq s _ rfl rfl h
      · rw [if_neg ha]
        exact h

lemma streamInv_run (s : JobState) (acts : List Act) (h : StreamInv s) :
    StreamInv (run s acts) := by
  induction acts generalizing s with
  | nil => exact h
  | cons a rest ih => exact ih (step s a) (streamInv_step s a h)

lemma streamInv_initJob (id : String) : StreamInv (initJob id) := by
  refine ⟨rfl, fun _ => rfl, fun hbad => ?_⟩
  simp [initJob] at hbad

/-! Section: field lemmas for the orchestrator handlers. -/

lemma enqueueEv_ctrl (e : Ev) (s : JobState) :
    (enqueueEv e s).ctrlClosed = s.ctrlClosed := by
  unfold enqueueEv
  split_ifs <;> rfl

lemma enqueueEv_active (e : Ev) (s : JobState) :
    (enqueueEv e s).active = s.active := by
  unfold enqueueEv
  split_ifs <;> rfl

lemma enqueueEv_killed (e : Ev) (s : JobState) :
    (enqueueEv e s).killed = s.killed := by
  unfold enqueueEv
  split_ifs <;> rfl

lemma enqueueEv_cleanup (e : Ev) (s : JobState) :
    (enqueueEv e s).cleanup = s.cleanup := by
  unfold enqueueEv
  split_ifs <;> rfl

lemma enqueueEv_procClosed (e : Ev) (s : JobState) :
    (enqueueEv e s).procClosed = s.procClosed := by
  unfold enqueueEv
  split_ifs <;> rfl

lemma enqueueEv_countP (e : Ev) (s : JobState) (p : Ev → Bool) :
    (enqueueEv e s).events.countP p =
      s.events.countP p + (if s.ctrlClosed = false ∧ p e = true then 1 else 0) := by
  unfold enqueueEv
  split_ifs with h1 h2 h3 <;>
    simp_all [List.countP_append, List.countP_cons]

lemma enqueueClose_ctrl (e : Ev) (s : JobState) :
    (enqueueClose e s).ctrlClosed = true := by
  unfold enqueueClose
  split_ifs with h
  · exact h
  · rfl

lemma enqueueClose_active (e : Ev) (s : JobState) :
    (enqueueClose e s).active = s.active := by
  unfold enqueueClose
  split_ifs <;> rfl

lemma enqueueClose_killed (e : Ev) (s : JobState) :
    (enqueueClose e s).killed = s.killed := by
  unfold enqueueClose
  split_ifs <;> rfl

lemma enqueueClose_cleanup (e : Ev) (s : JobState) :
    (enqueueClose e s).cleanup = s.cleanup := by
  unfold enqueueClose
  split_ifs <;> rfl

lemma enqueueClose_countP (e : Ev) (s : JobState) (p : Ev → Bool) :
    (enqueueClose e s).events.countP p =
      s.events.countP p + (if s.ctrlClosed = false ∧ p e = true then 1 else 0) := by
  unfold enqueueClose
  split_ifs with h1 h2 h3 <;>
    simp_all [List.countP_append, List.countP_cons]

lemma onClose_none (fs : Fs) (now : Nat) (s : JobState) :
    onClose none fs now s =
      enqueueClose (Ev.error ("Download failed with code " ++ codeStr none))
        { s with active := false, procClosed := true } := rfl

lemma onClose_some_succ (k : Nat) (fs : Fs) (now : Nat) (s : JobState) :
    onClose (some (k + 1)) fs now s =
      enqueueClose
        (Ev.error ("Download failed with code " ++ codeStr (some (k + 1))))
        { s with active := false, procClosed := true } := rfl

lemma onClose_zero_found (fs : Fs) (now : Nat) (s : JobState) (file : String)
    (hfind : (fs.map Prod.fst).find? (fun f => jsStartsWith f s.jobId) =
      some file) :
    onClose (some 0) fs now s =
      enqueueClose
        (Ev.complete (jsReplaceOnce file (s.jobId ++ "."))
          ((getAssoc fs file).getD []).length)
        { s with
            active := false, procClosed := true,
            cleanup := scheduleFileCleanup file s.jobId now s.cleanup } := by
  unfold onClose
  rw [hfind]

lemma onClose_zero_missing (fs : Fs) (now : Nat) (s : JobState)
    (hfind : (fs.map Prod.fst).find? (fun f => jsStartsWith f s.jobId) =
      none) :
    onClose (some 0) fs now s =
      enqueueClose (Ev.error "Downloaded file not found")
        { s with active := false, procClosed := true } := by
  unfold onClose
  rw [hfind]

lemma onClose_shape (code : Option Nat) (fs : Fs) (now : Nat) (s : JobState) :
    ∃ (e : Ev) (cl : CleanupState),
      onClose code fs now s =
        enqueueClose e
          { s with
              active := false, procClosed := true, cleanup := cl } ∧
      (isTerminalEv e = true) ∧
      (code = some 0 ∧
          (∃ file, (fs.map Prod.fst).find?
            (fun f => jsStartsWith f s.jobId) = some file ∧
            cl = scheduleFileCleanup file s.jobId now s.cleanup ∧
            isCompleteEv e = true) ∨
        cl = s.cleanup ∧ isErrorEv e = true) := by
  cases code with
  | none =>
      exact ⟨Ev.error ("Download failed with code " ++ codeStr none),
        s.cleanup, onClose_none fs now s, rfl, Or.inr ⟨rfl, rfl⟩⟩
  | some n =>
      cases n with
      | zero =>
          cases hfind : (fs.map Prod.fst).find?
              (fun f => jsStartsWith f s.jobId) with
          | some file =>
              exact ⟨Ev.complete (jsReplaceOnce file (s.jobId ++ "."))
                  ((getAssoc fs file).getD []).length,
                scheduleFileCleanup file s.jobId now s.cleanup,
                onClose_zero_found fs now s file hfind, rfl,
                Or.inl ⟨rfl, file, rfl, rfl, rfl⟩⟩
          | none =>
              exact ⟨Ev.error "Downloaded file not found", s.cleanup,
                onClose_zero_missing fs now s hfind, rfl, Or.inr ⟨rfl, rfl⟩⟩
      | succ k =>
          exact ⟨Ev.error ("Download failed with code " ++ codeStr
              (some (k + 1))),
            s.cleanup, onClose_some_succ k fs now s, rfl, Or.inr ⟨rfl, rfl⟩⟩

lemma onStdoutLine_ctrl (line : String) (s : JobState) :
    (onStdoutLine line s).ctrlClosed = s.ctrlClosed := by
  unfold onStdoutLine
  cases parseProgress line <;> dsimp only <;> split_ifs <;>
    simp [enqueueEv_ctrl]

lemma onStdoutLine_active (line : String) (s : JobState) :
    (onStdoutLine line s).active = s.active := by
  unfold onStdoutLine
  cases parseProgress line <;> dsimp only <;> split_ifs <;>
    simp [enqueueEv_active]

lemma onStdoutLine_killed (line : String) (s : JobState) :
    (onStdoutLine line s).killed = s.killed := by
  unfold onStdoutLine
  cases parseProgress line <;> dsimp only <;> split_ifs <;>
    simp [enqueueEv_killed]

lemma onStdoutLine_procClosed (line : String) (s : JobState) :
    (onStdoutLine line s).procClosed = s.procClosed := by
  unfold onStdoutLine
  cases parseProgress line <;> dsimp only <;> split_ifs <;>
    simp [enqueueEv_procClosed]

lemma onStdoutLine_cleanup (line : String) (s : JobState) :
    (onStdoutLine line s).cleanup = s.cleanup := by
  unfold onStdoutLine
  cases parseProgress line <;> dsimp only <;> split_ifs <;>
    simp [enqueueEv_cleanup]

lemma onStdoutLine_complete_countP (line : String) (s : JobState) :
    (onStdoutLine line s).events.countP isCompleteEv =
      s.events.countP isCompleteEv := by
  unfold onStdoutLine
  cases parseProgress line <;> dsimp only <;> split_ifs <;>
    simp [enqueueEv_countP, enqueueEv_ctrl, isCompleteEv]

lemma onStderrChunk_cases (c : String) (s : JobState) :
    onStderrChunk c s = s ∨
    (strIncludes c "ERROR" = true ∧ s.ctrlClosed = false ∧
      onStderrChunk c s =
        { s with
            events := s.events ++ [Ev.error ("Download failed: " ++ c)]
            ctrlClosed := true
            active := false }) := by
  unfold onStderrChunk
  split_ifs with h1 h2
  · exact Or.inl rfl
  · exact Or.inr ⟨h1, by simpa using h2, rfl⟩
  · exact Or.inl rfl

lemma onCancel_cases (s : JobState) :
    (s.active = true ∧ onCancel s =
      { s with
          active := false, killed := true,
          cleanup := clearCleanupTimer s.jobId s.cleanup }) ∨
    (s.active = false ∧ onCancel s = s) := by
  unfold onCancel
  split_ifs with h
  · exact Or.inl ⟨h, rfl⟩
  · exact Or.inr ⟨by simpa using h, rfl⟩

lemma ctrlClosed_step_mono (s : JobState) (a : Act)
    (h : s.ctrlClosed = true) : (step s a).ctrlClosed = true := by
  cases a with
  | stdoutLine line =>
      show (onStdoutLine line s).ctrlClosed = true
      rw [onStdoutLine_ctrl]
      exact h
  | stderrChunk c =>
      show (onStderrChunk c s).ctrlClosed = true
      rcases onStderrChunk_cases c s with he | ⟨_, hc, _⟩
      · rw [he]; exact h
      · rw [hc] at h; exact absurd h (by simp)
  | spawnError m =>
      show (onSpawnError m s).ctrlClosed = true
      unfold onSpawnError
      exact enqueueClose_ctrl _ _
  | procExit code fs now =>
      show (onClose code fs now s).ctrlClosed = true
      obtain ⟨e, cl, heq, _, _⟩ := onClose_shape code fs now s
      rw [heq]
      exact enqueueClose_ctrl _ _
  | cancel =>
      show (onCancel s).ctrlClosed = true
      rcases onCancel_cases s with ⟨_, he⟩ | ⟨_, he⟩ <;> rw [he] <;> exact h

lemma ctrlClosed_run_mono (s : JobState) (acts : List Act)
    (h : s.ctrlClosed = true) : (run s acts).ctrlClosed = true := by
  induction acts generalizing s with
  | nil => exact h
  | cons a rest ih => exact ih (step s a) (ctrlClosed_step_mono s a h)

lemma ctrlClosed_onClose (code : Option Nat) (fs : Fs) (now : Nat)
    (s : JobState) : (onClose code fs now s).ctrlClosed = true := by
  obtain ⟨e, cl, heq, _, _⟩ := onClose_shape code fs now s
  rw [heq]
  exact enqueueClose_ctrl _ _

lemma ctrlClosed_after_exit (s : JobState) (acts : List Act)
    (h : ∃ code fs now, Act.procExit code fs now ∈ acts) :
    (run s acts).ctrlClosed = true := by
  obtain ⟨code, fs, now, hmem⟩ := h
  induction acts generalizing s with
  | nil => simp at hmem
  | cons a rest ih =>
      rcases List.mem_cons.mp hmem with heq | hmem2
      · subst heq
        show (run (onClose code fs now s) rest).ctrlClosed = true
        exact ctrlClosed_run_mono _ rest (ctrlClosed_onClose code fs now s)
      · exact ih (step s a) hmem2

/-- Facts that hold from the moment a running job is cancelled: the kill
flag is set, the job stays deregistered, no complete event is ever
published and no cleanup timer is ever created. -/
def CancelSafe (s : JobState) : Prop :=
  s.killed = true ∧ s.active = false ∧
  s.events.countP isCompleteEv = 0 ∧ s.cleanup = emptyCleanup

lemma cancelSafe_step (s : JobState) (a : Act)
    (hv : match a with
      | Act.procExit code _ _ => s.killed = true → code = none
      | _ => True)
    (h : CancelSafe s) : CancelSafe (step s a) := by
  obtain ⟨hk, ha, hc, hcl⟩ := h
  cases a with
  | stdoutLine line =>
      show CancelSafe (onStdoutLine line s)
      exact ⟨by rw [onStdoutLine_killed]; exact hk,
        by rw [onStdoutLine_active]; exact ha,
        by rw [onStdoutLine_complete_countP]; exact hc,
        by rw [onStdoutLine_cleanup]; exact hcl⟩
  | stderrChunk c =>
      show CancelSafe (onStderrChunk c s)
      rcases onStderrChunk_cases c s with he | ⟨_, _, he⟩ <;> rw [he]
      · exact ⟨hk, ha, hc, hcl⟩
      · exact ⟨hk, rfl, by simp [List.countP_append, hc, List.countP_cons,
          isCompleteEv], hcl⟩
  | spawnError m =>
      show CancelSafe (onSpawnError m s)
      unfold onSpawnError
      refine ⟨by rw [enqueueClose_killed]; exact hk,
        by rw [enqueueClose_active],
        ?_, by rw [enqueueClose_cleanup]; exact hcl⟩
      rw [enqueueClose_countP]
      simp [hc, isCompleteEv]
  | procExit code fs now =>
      have hcode : code = none := hv hk
      subst hcode
      show CancelSafe (onClose none fs now s)
      rw [onClose_none]
      refine ⟨by rw [enqueueClose_killed]; exact hk,
        by rw [enqueueClose_active],
        ?_, by rw [enqueueClose_cleanup]; exact hcl⟩
      rw [enqueueClose_countP]
      simp [hc, isCompleteEv]
  | cancel =>
      show CancelSafe (onCancel s)
      rcases onCancel_cases s with ⟨hact, _⟩ | ⟨_, he⟩
      · rw [hact] at ha; exact absurd ha (by simp)
      · rw [he]; exact ⟨hk, ha, hc, hcl⟩

lemma validFrom_append (s : JobState) (l1 l2 : List Act)
    (h : ValidFrom s (l1 ++ l2)) : ValidFrom (run s l1) l2 := by
  induction l1 generalizing s with
  | nil => exact h
  | cons a rest ih => exact ih (step s a) h.2

lemma cancelSafe_run (s : JobState) (acts : List Act)
    (hv : ValidFrom s acts) (h : CancelSafe s) : CancelSafe (run s acts) := by
  induction acts generalizing s with
  | nil => exact h
  | cons a rest ih =>
      refine ih (step s a) hv.2 (cancelSafe_step s a ?_ h)
      cases a with
      | procExit code fs now => exact fun _ => (hv.1.2 h.1)
      | stdoutLine line => trivial
      | stderrChunk c => trivial
      | spawnError m => trivial
      | cancel => trivial

/-- While a job is still registered, no complete event has been published
and no cleanup timer has been created. -/
def ActiveFresh (s : JobState) : Prop :=
  s.active = true → s.events.countP isCompleteEv = 0 ∧ s.cleanup = emptyCleanup

lemma activeFresh_step (s : JobState) (a : Act) (h : ActiveFresh s) :
    ActiveFresh (step s a) := by
  cases a with
  | stdoutLine line =>
      show ActiveFresh (onStdoutLine line s)
      intro hact
      rw [onStdoutLine_active] at hact
      obtain ⟨h1, h2⟩ := h hact
      exact ⟨by rw [onStdoutLine_complete_countP]; exact h1,
        by rw [onStdoutLine_cleanup]; exact h2⟩
  | stderrChunk c =>
      show ActiveFresh (onStderrChunk c s)
      intro hact
      rcases onStderrChunk_cases c s with he | ⟨_, _, he⟩ <;> rw [he] at hact ⊢
      · exact h hact
      · simp at hact
  | spawnError m =>
      show ActiveFresh (onSpawnError m s)
      intro hact
      unfold onSpawnError at hact
      rw [enqueueClose_active] at hact
      simp at hact
  | procExit code fs now =>
      show ActiveFresh (onClose code fs now s)
      intro hact
      obtain ⟨e, cl, heq, _, _⟩ := onClose_shape code fs now s
      rw [heq, enqueueClose_active] at hact
      simp at hact
  | cancel =>
      show ActiveFresh (onCancel s)
      intro hact
      rcases onCancel_cases s with ⟨_, he⟩ | ⟨_, he⟩ <;> rw [he] at hact ⊢
      · simp at hact
      · exact h hact

lemma activeFresh_run (s : JobState) (acts : List Act) (h : ActiveFresh s) :
    ActiveFresh (run s acts) := by
  induction acts generalizing s with
  | nil => exact h
  | cons a rest ih => exact ih (step s a) (activeFresh_step s a h)

lemma run_append (s : JobState) (l1 l2 : List Act) :
    run s (l1 ++ l2) = run (run s l1) l2 := by
  induction l1 generalizing s with
  | nil => rfl
  | cons a rest ih => exact ih (step s a)

lemma onStdoutLine_processing_countP (line : String) (s : JobState)
    (hopen : s.ctrlClosed = false) :
    (onStdoutLine line s).events.countP isProcessingEv =
      s.events.countP isProcessingEv +
        (if isMarkerLine line = true then 1 else 0) := by
  unfold onStdoutLine isMarkerLine
  cases parseProgress line <;> dsimp only <;> split_ifs with hm <;>
    simp [enqueueEv_countP, enqueueEv_ctrl, hopen, isProcessingEv, hm]

lemma run_stdout_processing (lines : List String) (s : JobState)
    (hopen : s.ctrlClosed = false) :
    (run s (lines.map Act.stdoutLine)).events.countP isProcessingEv =
      s.events.countP isProcessingEv + lines.countP isMarkerLine ∧
    (run s (lines.map Act.stdoutLine)).ctrlClosed = false := by
  induction lines generalizing s with
  | nil => exact ⟨rfl, hopen⟩
  | cons l rest ih =>
      have h1 := onStdoutLine_processing_countP l s hopen
      have h2 : (onStdoutLine l s).ctrlClosed = false := by
        rw [onStdoutLine_ctrl]
        exact hopen
      obtain ⟨ih1, ih2⟩ := ih (onStdoutLine l s) h2
      refine ⟨?_, ih2⟩
      show (run (onStdoutLine l s) (rest.map Act.stdoutLine)).events.countP
          isProcessingEv = _
      rw [ih1, h1]
      by_cases hm : isMarkerLine l = true <;>
        simp [List.countP_cons, hm] <;> omega

/-- C2 (amended): after a cancellation of a still-running job, the job is
deregistered for good (every later lookup returns none), no complete event
is ever published on its stream, no cleanup timer is ever created for it —
but the stream is not silent: progress (and processing) events may still be
published until the killed process exits, and when its exit (necessarily
with a null code) is observed, a terminal error event is published as the
final event of the stream. -/
theorem C2_cancel_contract (id : String) (pre post : List Act)
    (hv : ValidFrom (initJob id) (pre ++ Act.cancel :: post))
    (hactive : (run (initJob id) pre).active = true) :
    (run (initJob id) (pre ++ Act.cancel :: post)).events.countP
        isCompleteEv = 0 ∧
    (run (initJob id) (pre ++ Act.cancel :: post)).cleanup = emptyCleanup ∧
    (run (initJob id) (pre ++ Act.cancel :: post)).active = false ∧
    ((∃ code fs now, Act.procExit code fs now ∈ post) →
      (run (initJob id) (pre ++ Act.cancel :: post)).events.countP
          isTerminalEv = 1 ∧
      ∃ e, (run (initJob id) (pre ++ Act.cancel :: post)).events.getLast? =
          some e ∧ isErrorEv e = true) := by
  have hfresh := activeFresh_run (initJob id) pre
    (fun _ => ⟨rfl, rfl⟩)
  obtain ⟨hc0, hcl0⟩ := hfresh hactive
  have hcases := onCancel_cases (run (initJob id) pre)
  rcases hcases with ⟨_, he⟩ | ⟨hfalse, _⟩
  · have hsafe1 : CancelSafe (step (run (initJob id) pre) Act.cancel) := by
      show CancelSafe (onCancel (run (initJob id) pre))
      rw [he, hcl0]
      exact ⟨rfl, rfl, by simpa using hc0, rfl⟩
    have hvpost : ValidFrom (step (run (initJob id) pre) Act.cancel) post :=
      (validFrom_append (initJob id) pre (Act.cancel :: post) hv).2
    have hsafe : CancelSafe (run (initJob id) (pre ++ Act.cancel :: post)) := by
      rw [run_append]
      show CancelSafe (run (step (run (initJob id) pre) Act.cancel) post)
      exact cancelSafe_run _ post hvpost hsafe1
    obtain ⟨hk, ha, hc, hcl⟩ := hsafe
    refine ⟨hc, hcl, ha, ?_⟩
    intro hex
    have hinv := streamInv_run (initJob id) (pre ++ Act.cancel :: post)
      (streamInv_initJob id)
    have hclosed : (run (initJob id) (pre ++ Act.cancel :: post)).ctrlClosed =
        true := by
      rw [run_append]
      exact ctrlClosed_after_exit _ (Act.cancel :: post)
        (by obtain ⟨c, f, n, hm⟩ := hex; exact ⟨c, f, n, by simp [hm]⟩)
    obtain ⟨hterm1, e, hlast, hterme⟩ := hinv.2.2 hclosed
    refine ⟨hterm1, e, hlast, ?_⟩
    have hmem : e ∈ (run (initJob id) (pre ++ Act.cancel :: post)).events := by
      obtain ⟨hne, heq2⟩ := List.mem_getLast?_eq_getLast
        (show e ∈ (run (initJob id)
          (pre ++ Act.cancel :: post)).events.getLast? from hlast)
      rw [heq2]
      exact List.getLast_mem hne
    rcases hor : isCompleteEv e with _ | _
    · simpa [isTerminalEv, hor] using hterme
    · exfalso
      have : 0 < (run (initJob id) (pre ++ Act.cancel :: post)).events.countP
          isCompleteEv := List.countP_pos.mpr ⟨e, hmem, hor⟩
      omega
  · rw [hfalse] at hactive
    exact absurd hactive (by simp)

/-- Witness for C2 at a concrete trace: start, cancel, observe the kill. -/
theorem C2_cancel_contract_witness :
    List.countP isCompleteEv (JobState.events
      (run (initJob "j") ([] ++ Act.cancel :: [Act.procExit none [] 7]))) = 0 ∧
    JobState.cleanup
      (run (initJob "j") ([] ++ Act.cancel :: [Act.procExit none [] 7])) =
      emptyCleanup ∧
    JobState.active
      (run (initJob "j") ([] ++ Act.cancel :: [Act.procExit none [] 7])) =
      false ∧
    List.countP isTerminalEv (JobState.events
      (run (initJob "j") ([] ++ Act.cancel :: [Act.procExit none [] 7]))) = 1 := by
  have h := C2_cancel_contract "j" [] [Act.procExit none [] 7]
    ⟨trivial, ⟨⟨rfl, fun _ => rfl⟩, trivial⟩⟩ rfl
  exact ⟨h.1, h.2.1, h.2.2.1,
    (h.2.2.2 ⟨none, [], 7, by simp⟩).1⟩

/-- C2 fails as stated: on the code, cancelling a running job does not end
the stream silently.  In the trace below the job is cancelled first, yet a
progress event is still published for a later stdout line, and when the
killed process exits a terminal error event is published. -/
theorem C2_counterexample :
    ValidFrom (initJob "j") [Act.cancel,
      Act.stdoutLine "[download] 50% of 10MiB at 1MiB/s ETA 00:42",
      Act.procExit none [] 0] ∧
    (run (initJob "j") [Act.cancel]).events.countP isProgressEv = 0 ∧
    (run (initJob "j") [Act.cancel,
      Act.stdoutLine "[download] 50% of 10MiB at 1MiB/s ETA 00:42",
      Act.procExit none [] 0]).events.countP isProgressEv = 1 ∧
    (run (initJob "j") [Act.cancel,
      Act.stdoutLine "[download] 50% of 10MiB at 1MiB/s ETA 00:42",
      Act.procExit none [] 0]).events.countP isErrorEv = 1 := by
  refine ⟨⟨trivial, ⟨rfl, ⟨⟨rfl, fun _ => rfl⟩, trivial⟩⟩⟩, ?_, ?_, ?_⟩ <;>
    decide

/-- C3 (amended): for every job, the `started` event is published exactly
once; once the process exit is observed, exactly one terminal event among
complete and error has been published and it is the last event of the
stream; but `processing` is not exactly-once — it is published once per
completion-marker stdout line observed (zero or more times). -/
theorem C3_event_stream_discipline (id : String) (acts : List Act)
    (code : Option Nat) (fs : Fs) (now : Nat) (lines : List String)
    (hv : ValidFrom (initJob id) acts) :
    (run (initJob id) acts).events.countP isStartedEv = 1 ∧
    ((∃ c f n, Act.procExit c f n ∈ acts) →
      (run (initJob id) acts).events.countP isTerminalEv = 1 ∧
      ∃ e, (run (initJob id) acts).events.getLast? = some e ∧
        isTerminalEv e = true) ∧
    (acts = lines.map Act.stdoutLine ++ [Act.procExit code fs now] →
      (run (initJob id) acts).events.countP isProcessingEv =
        lines.countP isMarkerLine) := by
  have hinv := streamInv_run (initJob id) acts (streamInv_initJob id)
  refine ⟨hinv.1, ?_, ?_⟩
  · intro hex
    exact hinv.2.2 (ctrlClosed_after_exit _ acts hex)
  · intro hshape
    subst hshape
    obtain ⟨hcount, hopen2⟩ :=
      run_stdout_processing lines (initJob id) rfl
    rw [run_append]
    show (onClose code fs now (run (initJob id)
      (lines.map Act.stdoutLine))).events.countP isProcessingEv = _
    obtain ⟨e, cl, heq, hterm, _⟩ := onClose_shape code fs now _
    rw [heq, enqueueClose_countP]
    have hnp : isProcessingEv e = false := by
      cases e <;> simp_all [isTerminalEv, isCompleteEv, isErrorEv,
        isProcessingEv]
    rw [show ({ run (initJob id) (lines.map Act.stdoutLine) with
        active := false, procClosed := true,
        cleanup := cl } : JobState).events =
      (run (initJob id) (lines.map Act.stdoutLine)).events from rfl]
    rw [hcount]
    simp [hnp, initJob, isProcessingEv]
    exact fun _ => hnp

/-- Witness for C3: one marker stdout line, then a clean exit. -/
theorem C3_event_stream_discipline_witness :
    (run (initJob "j") [Act.stdoutLine "[download] 100% of 3MiB in 00:02",
        Act.procExit (some 1) [] 5]).events.countP isStartedEv = 1 ∧
    (run (initJob "j") [Act.stdoutLine "[download] 100% of 3MiB in 00:02",
        Act.procExit (some 1) [] 5]).events.countP isTerminalEv = 1 ∧
    (run (initJob "j") [Act.stdoutLine "[download] 100% of 3MiB in 00:02",
        Act.procExit (some 1) [] 5]).events.countP isProcessingEv = 1 := by
  have h := C3_event_stream_discipline "j"
    [Act.stdoutLine "[download] 100% of 3MiB in 00:02",
      Act.procExit (some 1) [] 5] (some 1) [] 5
    ["[download] 100% of 3MiB in 00:02"]
    ⟨rfl, ⟨⟨rfl, fun hk => absurd hk (by decide)⟩, trivial⟩⟩
  refine ⟨h.1, (h.2.1 ⟨some 1, [], 5, by simp⟩).1, ?_⟩
  rw [h.2.2 rfl]
  decide

/-- C3 fails as stated: `processing` is not published exactly once per job.
A job that exits with a nonzero code without ever printing a completion
marker publishes `started` and a terminal `error` but zero `processing`
events. -/
theorem C3_counterexample :
    ValidFrom (initJob "j") [Act.procExit (some 1) [] 0] ∧
    (run (initJob "j") [Act.procExit (some 1) [] 0]).events.countP
        isProcessingEv = 0 ∧
    (run (initJob "j") [Act.procExit (some 1) [] 0]).events.countP
        isTerminalEv = 1 := by
  refine ⟨⟨⟨rfl, fun hk => by simp [initJob] at hk⟩, trivial⟩, ?_, ?_⟩ <;>
    decide

/-! Section: lemmas for the completion branch of the close handler. -/

lemma isPrefixOf_append_self (l r : List Char) :
    l.isPrefixOf (l ++ r) = true := by
  induction l with
  | nil => simp [List.isPrefixOf]
  | cons c cs ih => simpa [List.isPrefixOf] using ih

lemma jsStartsWith_append (id t : String) :
    jsStartsWith (id ++ t) id = true := by
  unfold jsStartsWith
  rw [show (id ++ t).toList = id.toList ++ t.toList from String.data_append id t]
  exact isPrefixOf_append_self id.toList t.toList

lemma find?_names {α : Type} (f1 f2 : List (String × α)) (a : String) (b : α)
    (p : String → Bool) (h1 : ∀ q ∈ f1, p q.1 = false) (hp : p a = true) :
    ((f1 ++ (a, b) :: f2).map Prod.fst).find? p = some a := by
  induction f1 with
  | nil => simp [List.find?_cons_of_pos, hp]
  | cons q rest ih =>
      have hq : p q.1 = false := h1 q (by simp)
      have ih2 := ih (fun r hr => h1 r (by simp [hr]))
      simp only [List.cons_append, List.map_cons]
      rw [List.find?_cons_of_neg _ (by simp [hq])]
      exact ih2

lemma find?_names_none {α : Type} (fs : List (String × α)) (p : String → Bool)
    (h : ∀ q ∈ fs, p q.1 = false) : (fs.map Prod.fst).find? p = none := by
  rw [List.find?_eq_none]
  intro x hx
  obtain ⟨q, hq, rfl⟩ := List.mem_map.mp hx
  simp [h q hq]

lemma getAssoc_mid {α : Type} (f1 f2 : List (String × α)) (a : String) (b : α)
    (h1 : ∀ q ∈ f1, q.1 ≠ a) : getAssoc (f1 ++ (a, b) :: f2) a = some b := by
  induction f1 with
  | nil => simp [getAssoc]
  | cons q rest ih =>
      have hq : q.1 ≠ a := h1 q (by simp)
      have ih2 := ih (fun r hr => h1 r (by simp [hr]))
      obtain ⟨k, v⟩ := q
      simpa [getAssoc, hq] using ih2

lemma replaceOnceL_cons_append (c : Char) (cs r : List Char) :
    replaceOnceL (c :: cs) ((c :: cs) ++ r) = r := by
  have hpre := isPrefixOf_append_self (c :: cs) r
  show replaceOnceL (c :: cs) (c :: (cs ++ r)) = r
  unfold replaceOnceL
  rw [if_pos
    (show (c :: cs).isPrefixOf (c :: (cs ++ r)) = true from hpre)]
  exact List.drop_left (c :: cs) r

lemma jsReplaceOnce_prefix (id ext : String) :
    jsReplaceOnce (id ++ "." ++ ext) (id ++ ".") = ext := by
  unfold jsReplaceOnce
  have hsplit : (id ++ "." ++ ext).toList = (id ++ ".").toList ++ ext.toList :=
    String.data_append (id ++ ".") ext
  rw [hsplit]
  have hne : (id ++ ".").toList = id.toList ++ ['.'] := String.data_append id "."
  cases hl : (id ++ ".").toList with
  | nil =>
      rw [hl] at hne
      exact absurd hne.symm (by simp)
  | cons c cs =>
      rw [replaceOnceL_cons_append c cs ext.toList]
      rfl

/-- C4: whenever the process exits with code 0 and the output directory
holds exactly one file whose name is prefixed by the job id — necessarily
of the output-template form `"<id>." ++ ext` — the close handler publishes
a complete event carrying that file's name with the `"<id>."` prefix
stripped and the measured byte size, closes the stream, and schedules a
cleanup timer (delay `cleanupDelayMs` = 180000 ms = 3 minutes) for the
artifact; if instead no file is prefixed by the job id after a zero exit,
the job ends with a terminal error event and no timer. -/
theorem C4_completion_contract (s : JobState) (f1 f2 : Fs) (bytes : List Nat)
    (ext : String) (now : Nat)
    (hopen : s.ctrlClosed = false)
    (h1 : ∀ q ∈ f1, jsStartsWith q.1 s.jobId = false)
    (h2 : ∀ q ∈ f2, jsStartsWith q.1 s.jobId = false) :
    (onClose (some 0) (f1 ++ (s.jobId ++ "." ++ ext, bytes) :: f2) now s =
      { s with
          active := false, procClosed := true, ctrlClosed := true,
          events := s.events ++ [Ev.complete ext bytes.length],
          cleanup := scheduleFileCleanup (s.jobId ++ "." ++ ext) s.jobId now
            s.cleanup }) ∧
    cleanupDelayMs = 180000 ∧
    (∀ fs2 : Fs, (∀ q ∈ fs2, jsStartsWith q.1 s.jobId = false) →
      onClose (some 0) fs2 now s =
        { s with
            active := false, procClosed := true, ctrlClosed := true,
            events := s.events ++ [Ev.error "Downloaded file not found"] }) := by
  refine ⟨?_, rfl, ?_⟩
  · have hstarts : jsStartsWith (s.jobId ++ "." ++ ext) s.jobId = true := by
      rw [String.append_assoc]
      exact jsStartsWith_append s.jobId ("." ++ ext)
    have hfind := find?_names f1 f2 (s.jobId ++ "." ++ ext) bytes
      (fun f => jsStartsWith f s.jobId) h1 hstarts
    have hkeys : ∀ q ∈ f1, q.1 ≠ s.jobId ++ "." ++ ext := by
      intro q hq heq
      have := h1 q hq
      rw [heq, hstarts] at this
      exact absurd this (by simp)
    have hget := getAssoc_mid f1 f2 (s.jobId ++ "." ++ ext) bytes hkeys
    rw [onClose_zero_found _ _ _ _ hfind]
    unfold enqueueClose
    rw [if_neg (by simp [hopen])]
    rw [hget, jsReplaceOnce_prefix]
    rfl
  · intro fs2 hall
    have hfind := find?_names_none fs2 (fun f => jsStartsWith f s.jobId) hall
    rw [onClose_zero_missing _ _ _ hfind]
    unfold enqueueClose
    rw [if_neg (by simp [hopen])]

/-- Witness for C4 on a one-file directory and on an empty directory. -/
theorem C4_completion_contract_witness :
    onClose (some 0) [("j" ++ "." ++ "mp4", [1, 2, 3])] 40 (initJob "j") =
      { initJob "j" with
          active := false, procClosed := true, ctrlClosed := true,
          events := [Ev.started, Ev.complete "mp4" 3],
          cleanup := scheduleFileCleanup ("j" ++ "." ++ "mp4") "j" 40
            emptyCleanup } ∧
    onClose (some 0) [] 40 (initJob "j") =
      { initJob "j" with
          active := false, procClosed := true, ctrlClosed := true,
          events := [Ev.started, Ev.error "Downloaded file not found"] } := by
  have h := C4_completion_contract (initJob "j") [] [] [1, 2, 3] "mp4" 40 rfl
    (by simp) (by simp)
  exact ⟨h.1, h.2.2 [] (by simp)⟩

/-! Section: key-uniqueness of association maps, for the cleanup-timer
table. -/

/-- The keys of an association list are pairwise distinct. -/
def KeysNodup {α : Type} (m : List (String × α)) : Prop :=
  (m.map Prod.fst).Nodup

lemma mem_keys_setAssoc {α : Type} (m : List (String × α)) (k : String)
    (v : α) (a : String) (h : a ∈ (setAssoc m k v).map Prod.fst) :
    a ∈ m.map Prod.fst ∨ a = k := by
  induction m with
  | nil =>
      rw [show setAssoc ([] : List (String × α)) k v = [(k, v)] from rfl,
        List.map_cons, List.map_nil] at h
      exact Or.inr (by simpa using h)
  | cons q rest ih =>
      obtain ⟨k0, v0⟩ := q
      by_cases hk : k0 = k
      · subst hk
        rw [show setAssoc ((k0, v0) :: rest) k0 v = (k0, v) :: rest from by simp [setAssoc], List.map_cons] at h
        rcases List.mem_cons.mp h with h | h
        · exact Or.inl (List.mem_cons.mpr (Or.inl h))
        · exact Or.inl (List.mem_cons.mpr (Or.inr h))
      · rw [show setAssoc ((k0, v0) :: rest) k v = (k0, v0) :: setAssoc rest k v from by simp [setAssoc, hk], List.map_cons] at h
        rcases List.mem_cons.mp h with h | h
        · exact Or.inl (List.mem_cons.mpr (Or.inl h))
        · rcases ih h with h2 | h2
          · exact Or.inl (List.mem_cons.mpr (Or.inr h2))
          · exact Or.inr h2

lemma keysNodup_setAssoc {α : Type} (m : List (String × α)) (k : String)
    (v : α) (h : KeysNodup m) : KeysNodup (setAssoc m k v) := by
  induction m with
  | nil => simp [KeysNodup, setAssoc]
  | cons q rest ih =>
      obtain ⟨k0, v0⟩ := q
      unfold KeysNodup at h
      rw [List.map_cons, List.nodup_cons] at h
      obtain ⟨hnotin, hrest⟩ := h
      by_cases hk : k0 = k
      · subst hk
        unfold KeysNodup
        rw [show setAssoc ((k0, v0) :: rest) k0 v = (k0, v) :: rest from
          by simp [setAssoc], List.map_cons, List.nodup_cons]
        exact ⟨hnotin, hrest⟩
      · unfold KeysNodup
        rw [show setAssoc ((k0, v0) :: rest) k v =
            (k0, v0) :: setAssoc rest k v from by simp [setAssoc, hk],
          List.map_cons, List.nodup_cons]
        refine ⟨?_, ih hrest⟩
        intro hbad
        rcases mem_keys_setAssoc rest k v k0 hbad with h2 | h2
        · exact hnotin h2
        · exact hk h2

lemma delAssoc_sublist {α : Type} (m : List (String × α)) (k : String) :
    (delAssoc m k).Sublist m := by
  induction m with
  | nil => simp [delAssoc]
  | cons q rest ih =>
      obtain ⟨k0, v0⟩ := q
      by_cases hk : k0 = k
      · simp only [delAssoc, if_pos hk]
        exact List.sublist_cons_self (k0, v0) rest
      · simp only [delAssoc, if_neg hk]
        exact List.Sublist.cons₂ (k0, v0) ih

lemma keysNodup_delAssoc {α : Type} (m : List (String × α)) (k : String)
    (h : KeysNodup m) : KeysNodup (delAssoc m k) :=
  List.Nodup.sublist (List.Sublist.map Prod.fst (delAssoc_sublist m k)) h

lemma countP_keys_le_one {α : Type} (m : List (String × α))
    (h : KeysNodup m) (k : String) :
    m.countP (fun p => decide (p.1 = k)) ≤ 1 := by
  have h1 : m.countP (fun p => decide (p.1 = k)) =
      (m.map Prod.fst).countP (fun x => decide (x = k)) := by
    rw [List.countP_map]
    rfl
  have h2 : (m.map Prod.fst).countP (fun x => decide (x = k)) =
      (m.map Prod.fst).count k := by
    unfold List.count
    refine List.countP_congr ?_
    intro x _
    by_cases hx : x = k <;> simp [hx]
  rw [h1, h2]
  exact List.nodup_iff_count_le_one.mp h k

/-- C6 fails as stated: re-scheduling cleanup for a job id replaces the
map entry but never cancels the prior `setTimeout`, so two pending timers
exist for the id and the replaced one still fires and deletes its file;
moreover, if the unlink throws, the timer's map entry is not discarded. -/
theorem C6_counterexample :
    (scheduleFileCleanup "f2" "job" 10
        (scheduleFileCleanup "f1" "job" 0 emptyCleanup)).timers =
      [⟨0, "f1", "job", 180000, false, false⟩,
        ⟨1, "f2", "job", 180010, false, false⟩] ∧
    (fireCleanupTimer ⟨0, "f1", "job", 180000, false, false⟩ [("f1", [7])]
        (scheduleFileCleanup "f2" "job" 10
          (scheduleFileCleanup "f1" "job" 0 emptyCleanup)) false).1 = [] ∧
    (fireCleanupTimer ⟨1, "f2", "job", 180010, false, false⟩ [("f2", [7])]
        (scheduleFileCleanup "f2" "job" 10
          (scheduleFileCleanup "f1" "job" 0 emptyCleanup)) true).2.entries =
      [("job", 1)] := by
  refine ⟨?_, ?_, ?_⟩ <;> decide

/-- C6 (amended): the `fileCleanupTimers` map keeps at most one entry per
job id and scheduling replaces the entry, but the replaced timer object is
not cancelled — it remains in the timer list unchanged and will still run;
when a timer fires it deletes the artifact if it still exists, a missing
file is not an error (the entry is still discarded), and the entry is
discarded on every outcome except a thrown unlink, which leaves the entry
in the map. -/
theorem C6_cleanup_contract (filePath downloadId : String) (now : Nat)
    (cs : CleanupState) (t : Timer) (fs : Fs) :
    (KeysNodup cs.entries →
      KeysNodup (scheduleFileCleanup filePath downloadId now cs).entries ∧
      ∀ k, (scheduleFileCleanup filePath downloadId now cs).entries.countP
        (fun p => decide (p.1 = k)) ≤ 1) ∧
    getAssoc (scheduleFileCleanup filePath downloadId now cs).entries
      downloadId = some cs.nextTid ∧
    (scheduleFileCleanup filePath downloadId now cs).timers =
      cs.timers ++
        [⟨cs.nextTid, filePath, downloadId, now + cleanupDelayMs, false,
          false⟩] ∧
    ((getAssoc fs t.filePath).isSome = true →
      fireCleanupTimer t fs cs false =
        (delAssoc fs t.filePath,
          { timers := cs.timers.map (markFired t.tid)
            entries := delAssoc cs.entries t.jobId
            nextTid := cs.nextTid })) ∧
    ((getAssoc fs t.filePath).isSome = false →
      fireCleanupTimer t fs cs false =
        (fs,
          { timers := cs.timers.map (markFired t.tid)
            entries := delAssoc cs.entries t.jobId
            nextTid := cs.nextTid })) ∧
    ((getAssoc fs t.filePath).isSome = true →
      fireCleanupTimer t fs cs true =
        (fs,
          { timers := cs.timers.map (markFired t.tid)
            entries := cs.entries
            nextTid := cs.nextTid })) := by
  refine ⟨?_, getAssoc_setAssoc_self cs.entries downloadId cs.nextTid, rfl,
    ?_, ?_, ?_⟩
  · intro h
    have hn := keysNodup_setAssoc cs.entries downloadId cs.nextTid h
    exact ⟨hn, fun k => countP_keys_le_one _ hn k⟩
  · intro hsome
    unfold fireCleanupTimer
    rw [if_pos hsome, if_neg (by simp)]
  · intro hnone
    unfold fireCleanupTimer
    rw [if_neg (by simp [hnone])]
  · intro hsome
    unfold fireCleanupTimer
    rw [if_pos hsome, if_pos rfl]

/-- Witness for C6 at concrete inputs. -/
theorem C6_cleanup_contract_witness :
    KeysNodup (scheduleFileCleanup "f1" "job" 0 emptyCleanup).entries ∧
    getAssoc (scheduleFileCleanup "f1" "job" 0 emptyCleanup).entries "job" =
      some 0 ∧
    fireCleanupTimer ⟨0, "f1", "job", 180000, false, false⟩ [("f1", [7])]
        (scheduleFileCleanup "f1" "job" 0 emptyCleanup) false =
      ([], ⟨[⟨0, "f1", "job", 180000, false, true⟩], [], 1⟩) ∧
    fireCleanupTimer ⟨0, "f1", "job", 180000, false, false⟩ []
        (scheduleFileCleanup "f1" "job" 0 emptyCleanup) false =
      ([], ⟨[⟨0, "f1", "job", 180000, false, true⟩], [], 1⟩) ∧
    fireCleanupTimer ⟨0, "f1", "job", 180000, false, false⟩ [("f1", [7])]
        (scheduleFileCleanup "f1" "job" 0 emptyCleanup) true =
      ([("f1", [7])],
        ⟨[⟨0, "f1", "job", 180000, false, true⟩], [("job", 0)], 1⟩) := by
  have h := C6_cleanup_contract "f1" "job" 0 emptyCleanup
    ⟨0, "f1", "job", 180000, false, false⟩ [("f1", [7])]
  have hB := C6_cleanup_contract "f1" "job" 0
    (scheduleFileCleanup "f1" "job" 0 emptyCleanup)
    ⟨0, "f1", "job", 180000, false, false⟩ [("f1", [7])]
  have hC := C6_cleanup_contract "f1" "job" 0
    (scheduleFileCleanup "f1" "job" 0 emptyCleanup)
    ⟨0, "f1", "job", 180000, false, false⟩ []
  refine ⟨(h.1 (by simp [emptyCleanup, KeysNodup])).1, h.2.1, ?_, ?_, ?_⟩
  · exact hB.2.2.2.1 (by decide)
  · exact hC.2.2.2.2.1 (by decide)
  · exact hB.2.2.2.2.2 (by decide)

/-! Section: artifact server (`GET` of `src/unnamed/part_002`).  The route
re-resolves the artifact by scanning the directory for a name prefixed by
the download id, derives the content type from the extension, and serves
either the whole file or a single byte range.  `decodeURIComponent` (a JS
builtin) is modeled as strict percent-decoding with UTF-8 validation of
escape runs, returning the decoded code points or `none` where JS throws
`URIError`; a `none` surfaces as the route's catch-all 500.  `parseInt(x,
10)` is modeled as `none` for NaN; the split parts contain no minus sign,
so no negative values arise.  `createReadStream(path, {start, end})`
throws (`none` here, then 500 via the catch) unless `start` and `end` are
integers with `start ≤ end`, and reads the bytes from `start` through
`min(end, size - 1)`. -/

/-- Model of `parseInt(s, 10)` restricted to the sign-free strings produced
by splitting a range header on `-`: leading JS whitespace is skipped, then
a maximal digit run is read; no digits means NaN (`none`). -/
def parseIntJS (l : List Char) : Option Nat :=
  let l2 := l.dropWhile isWs
  let ds := l2.takeWhile Char.isDigit
  if ds.isEmpty then none else some (digitsToNat ds)

/-- Model of JS `String.split` with a one-character separator. -/
def splitOnChar (sep : Char) : List Char → List (List Char)
  | [] => [[]]
  | c :: tl =>
      let r := splitOnChar sep tl
      if c = sep then [] :: r
      else (c :: r.headD []) :: r.tail

/-- Hexadecimal digit test. -/
def isHexDigit (c : Char) : Bool :=
  c.isDigit || ('a' ≤ c && c ≤ 'f') || ('A' ≤ c && c ≤ 'F')

/-- Value of a hexadecimal digit. -/
def hexVal (c : Char) : Nat :=
  if c.isDigit then c.toNat - 48
  else if 'a' ≤ c then c.toNat - 87
  else c.toNat - 55

/-- UTF-8 continuation byte test. -/
def isContByte (n : Nat) : Bool := 128 ≤ n && n ≤ 191

/-- Allowed second byte of a 3-byte UTF-8 sequence led by `n1`. -/
def utf8SecondOf3 (n1 n2 : Nat) : Bool :=
  if n1 = 224 then 160 ≤ n2 && n2 ≤ 191
  else if n1 = 237 then 128 ≤ n2 && n2 ≤ 159
  else isContByte n2

/-- Allowed second byte of a 4-byte UTF-8 sequence led by `n1`. -/
def utf8SecondOf4 (n1 n2 : Nat) : Bool :=
  if n1 = 240 then 144 ≤ n2 && n2 ≤ 191
  else if n1 = 244 then 128 ≤ n2 && n2 ≤ 143
  else isContByte n2

/-- Model of `decodeURIComponent` over the characters of the argument:
literal characters pass through; a `%` must introduce two hex digits, and
escape bytes at or above 0x80 must form a valid UTF-8 sequence made of
further escapes, else JS throws `URIError` (`none`).  Returns decoded code
points. -/
def pctDecode : List Char → Option (List Nat)
  | [] => some []
  | '%' :: a :: b :: tl =>
      if isHexDigit a && isHexDigit b then
        let n1 := hexVal a * 16 + hexVal b
        if n1 < 128 then (pctDecode tl).map (fun r => n1 :: r)
        else if 194 ≤ n1 && n1 ≤ 223 then
          match tl with
          | '%' :: a2 :: b2 :: tl2 =>
              if isHexDigit a2 && isHexDigit b2 then
                let n2 := hexVal a2 * 16 + hexVal b2
                if isContByte n2 then
                  (pctDecode tl2).map
                    (fun r => ((n1 - 192) * 64 + (n2 - 128)) :: r)
                else none
              else none
          | _ => none
        else if 224 ≤ n1 && n1 ≤ 239 then
          match tl with
          | '%' :: a2 :: b2 :: '%' :: a3 :: b3 :: tl3 =>
              if isHexDigit a2 && isHexDigit b2 && isHexDigit a3 &&
                  isHexDigit b3 then
                let n2 := hexVal a2 * 16 + hexVal b2
                let n3 := hexVal a3 * 16 + hexVal b3
                if utf8SecondOf3 n1 n2 && isContByte n3 then
                  (pctDecode tl3).map (fun r =>
                    ((n1 - 224) * 4096 + (n2 - 128) * 64 + (n3 - 128)) :: r)
                else none
              else none
          | _ => none
        else if 240 ≤ n1 && n1 ≤ 244 then
          match tl with
          | '%' :: a2 :: b2 :: '%' :: a3 :: b3 :: '%' :: a4 :: b4 :: tl4 =>
              if isHexDigit a2 && isHexDigit b2 && isHexDigit a3 &&
                  isHexDigit b3 && isHexDigit a4 && isHexDigit b4 then
                let n2 := hexVal a2 * 16 + hexVal b2
                let n3 := hexVal a3 * 16 + hexVal b3
                let n4 := hexVal a4 * 16 + hexVal b4
                if utf8SecondOf4 n1 n2 && isContByte n3 && isContByte n4 then
                  (pctDecode tl4).map (fun r =>
                    ((n1 - 240) * 262144 + (n2 - 128) * 4096 +
                      (n3 - 128) * 64 + (n4 - 128)) :: r)
                else none
              else none
          | _ => none
        else none
      else none
  | '%' :: _ => none
  | c :: tl => (pctDecode tl).map (fun r => c.toNat :: r)

/-- String wrapper for `pctDecode`. -/
def decodeURIComponentModel (s : String) : Option (List Nat) :=
  pctDecode s.toList

/-- Content type derived from the file extension
(`actualFilename.split('.').pop()?.toLowerCase()` and the `switch`). -/
def contentTypeOf (actualFilename : String) : String :=
  let ext : String :=
    ⟨((splitOnChar '.' actualFilename.toList).getLastD []).map Char.toLower⟩
  if ext = "mp4" then "video/mp4"
  else if ext = "mp3" then "audio/mpeg"
  else if ext = "webm" then "video/webm"
  else if ext = "m4a" then "audio/mp4"
  else "application/octet-stream"

/-- A response body: a JSON error message or served file bytes. -/
inductive RespBody where
  | json (msg : String)
  | fileBytes (b : List Nat)
  deriving Repr, DecidableEq

/-- The observable response of the artifact route. -/
structure HttpResponse where
  status : Nat
  contentType : String
  contentLength : Option String
  contentRange : Option String
  disposition : Option (List Nat)
  body : RespBody
  deriving Repr, DecidableEq

/-- A JSON error response (`NextResponse.json`). -/
def jsonResponse (status : Nat) (msg : String) : HttpResponse :=
  ⟨status, "application/json", none, none, none, RespBody.json msg⟩

/-- The start bound of a parsed range header. -/
def rangeStart (fileSize : Nat) (r : String) : Option Nat :=
  parseIntJS ((splitOnChar '-' (jsReplaceOnce r "bytes=").toList).headD [])

/-- The end bound of a parsed range header (`parts[1] ? parseInt(parts[1])
: fileSize - 1`; an absent or empty second part defaults to the last
byte). -/
def rangeEnd (fileSize : Nat) (r : String) : Option Int :=
  match (splitOnChar '-' (jsReplaceOnce r "bytes=").toList)[1]? with
  | some p2 =>
      if p2 = [] then some ((fileSize : Int) - 1)
      else match parseIntJS p2 with
        | some n => some ((n : Int))
        | none => none
  | none => some ((fileSize : Int) - 1)

/-- The single-range branch of the handler: parse the header, create the
bounded read stream (`createReadStream` throws on a NaN bound or
`start > end`, surfacing as the catch-all 500) and respond 206. -/
def rangeResponse (contentType : String) (bytes disp : List Nat)
    (r : String) : HttpResponse :=
  let fileSize := bytes.length
  match rangeStart fileSize r, rangeEnd fileSize r with
  | some st, some en =>
      if (st : Int) ≤ en ∧ 0 ≤ en then
        ⟨206, contentType,
          some (toString (en - (st : Int) + 1)),
          some ("bytes " ++ toString st ++ "-" ++
            toString en ++ "/" ++ toString fileSize),
          some disp,
          RespBody.fileBytes ((bytes.take (en.toNat + 1)).drop st)⟩
      else jsonResponse 500 "Failed to download file"
  | _, _ => jsonResponse 500 "Failed to download file"

/-- The `GET` handler of the artifact route, over the directory `fs` and
the dynamic route params and `Range` header. -/
def getDownloadFile (fs : Fs) (downloadId filename : String)
    (range : Option String) : HttpResponse :=
  if downloadId = "" ∨ filename = "" then
    jsonResponse 400 "Missing parameters"
  else
    match (fs.map Prod.fst).find? (fun f => jsStartsWith f downloadId) with
    | none => jsonResponse 404 "File not found or has expired"
    | some actualFilename =>
        let bytes := (getAssoc fs actualFilename).getD []
        let contentType := contentTypeOf actualFilename
        match decodeURIComponentModel filename with
        | none => jsonResponse 500 "Failed to download file"
        | some disp =>
            match range with
            | some r => rangeResponse contentType bytes disp r
            | none =>
                ⟨200, contentType, some (toString bytes.length), none,
                  some disp, RespBody.fileBytes bytes⟩

/-! Section: lemmas about range parsing and directory updates. -/

lemma parseIntJS_digits (sa : List Char) (h : DigitRun sa) :
    parseIntJS sa = some (digitsToNat sa) := by
  obtain ⟨hne, hall⟩ := h
  cases sa with
  | nil => exact absurd rfl hne
  | cons c cs =>
      have hc := hall c (by simp)
      have hnw : isWs c = false := isWs_eq_false_of_isDigit c hc
      have hdw : (c :: cs).dropWhile isWs = c :: cs := by
        simp [List.dropWhile_cons, hnw]
      have htw : (c :: cs).takeWhile Char.isDigit = c :: cs := by
        have := takeWhile_app Char.isDigit (c :: cs) [] hall (by simp [HeadStops])
        simpa using this
      unfold parseIntJS
      rw [hdw]
      simp [htw]

lemma splitOnChar_no_sep (sep : Char) (l : List Char) (h : sep ∉ l) :
    splitOnChar sep l = [l] := by
  induction l with
  | nil => rfl
  | cons c tl ih =>
      have hc : ¬ c = sep := fun he => h (by simp [he])
      have ih2 := ih (fun hm => h (by simp [hm]))
      simp [splitOnChar, hc, ih2]

lemma splitOnChar_mid (sep : Char) (sa sb : List Char) (ha : sep ∉ sa)
    (hb : sep ∉ sb) : splitOnChar sep (sa ++ sep :: sb) = [sa, sb] := by
  induction sa with
  | nil => simp [splitOnChar, splitOnChar_no_sep sep sb hb]
  | cons c cs ih =>
      have hc : ¬ c = sep := fun he => ha (by simp [he])
      have ih2 := ih (fun hm => ha (by simp [hm]))
      simp [splitOnChar, hc, ih2]

lemma dash_not_mem_digits (sa : List Char)
    (h : ∀ c ∈ sa, c.isDigit = true) : ('-' : Char) ∉ sa := by
  intro hm
  have := h _ hm
  exact absurd this (by decide)

lemma replaceOnceL_bytes (X : List Char) :
    replaceOnceL "bytes=".toList ("bytes=".toList ++ X) = X :=
  replaceOnceL_cons_append 'b' "ytes=".toList X

lemma delAssoc_mid {α : Type} (f1 f2 : List (String × α)) (a : String)
    (b : α) (h1 : ∀ q ∈ f1, q.1 ≠ a) :
    delAssoc (f1 ++ (a, b) :: f2) a = f1 ++ f2 := by
  induction f1 with
  | nil => simp [delAssoc]
  | cons q rest ih =>
      obtain ⟨k, v⟩ := q
      have hk : k ≠ a := h1 (k, v) (by simp)
      have ih2 := ih (fun r hr => h1 r (by simp [hr]))
      simp [delAssoc, hk, ih2]

lemma getAssoc_append_none {α : Type} (f1 f2 : List (String × α))
    (a : String) (h1 : ∀ q ∈ f1, q.1 ≠ a) (h2 : ∀ q ∈ f2, q.1 ≠ a) :
    getAssoc (f1 ++ f2) a = none := by
  induction f1 with
  | nil =>
      induction f2 with
      | nil => rfl
      | cons q rest ih =>
          obtain ⟨k, v⟩ := q
          have hk : k ≠ a := h2 (k, v) (by simp)
          have ih2 := ih (fun r hr => h2 r (by simp [hr]))
          simpa [getAssoc, hk] using ih2
  | cons q rest ih =>
      obtain ⟨k, v⟩ := q
      have hk : k ≠ a := h1 (k, v) (by simp)
      have ih2 := ih (fun r hr => h1 r (by simp [hr]))
      simpa [getAssoc, hk] using ih2

lemma jsReplaceOnce_bytes_toList (X : List Char) :
    (jsReplaceOnce ⟨"bytes=".toList ++ X⟩ "bytes=").toList = X := by
  show replaceOnceL "bytes=".toList ("bytes=".toList ++ X) = X
  exact replaceOnceL_bytes X

lemma rangeStart_eval (n : Nat) (sa sb : List Char) (hsa : DigitRun sa)
    (hsb : DigitRun sb) :
    rangeStart n ⟨"bytes=".toList ++ (sa ++ '-' :: sb)⟩ =
      some (digitsToNat sa) := by
  unfold rangeStart
  rw [jsReplaceOnce_bytes_toList,
    splitOnChar_mid '-' sa sb (dash_not_mem_digits sa hsa.2)
      (dash_not_mem_digits sb hsb.2)]
  simpa using parseIntJS_digits sa hsa

lemma rangeEnd_eval (n : Nat) (sa sb : List Char) (hsa : DigitRun sa)
    (hsb : DigitRun sb) :
    rangeEnd n ⟨"bytes=".toList ++ (sa ++ '-' :: sb)⟩ =
      some ((digitsToNat sb : Int)) := by
  unfold rangeEnd
  rw [jsReplaceOnce_bytes_toList,
    splitOnChar_mid '-' sa sb (dash_not_mem_digits sa hsa.2)
      (dash_not_mem_digits sb hsb.2)]
  have hsome : ([sa, sb])[1]? = some sb := rfl
  rw [hsome]
  show (if sb = [] then some ((n : Int) - 1)
      else
        match parseIntJS sb with
        | some m => some ((m : Int))
        | none => none) =
    some ((digitsToNat sb : Int))
  rw [if_neg hsb.1, parseIntJS_digits sb hsb]

lemma getDownloadFile_found (fs : Fs) (id fname name : String)
    (range : Option String) (disp : List Nat)
    (hid : id ≠ "") (hfn : fname ≠ "")
    (hfind : (fs.map Prod.fst).find? (fun f => jsStartsWith f id) =
      some name)
    (hdec : decodeURIComponentModel fname = some disp) :
    getDownloadFile fs id fname range =
      match range with
      | some r =>
          rangeResponse (contentTypeOf name) ((getAssoc fs name).getD [])
            disp r
      | none =>
          ⟨200, contentTypeOf name,
            some (toString ((getAssoc fs name).getD []).length), none,
            some disp,
            RespBody.fileBytes ((getAssoc fs name).getD [])⟩ := by
  unfold getDownloadFile
  rw [if_neg (by simp [hid, hfn]), hfind, hdec]

lemma getDownloadFile_notfound (fs : Fs) (id fname : String)
    (range : Option String) (hid : id ≠ "") (hfn : fname ≠ "")
    (hfind : (fs.map Prod.fst).find? (fun f => jsStartsWith f id) = none) :
    getDownloadFile fs id fname range =
      jsonResponse 404 "File not found or has expired" := by
  unfold getDownloadFile
  rw [if_neg (by simp [hid, hfn]), hfind]

/-- C7: a job completing with exit code 0 on a directory holding exactly
one id-prefixed artifact publishes the complete event with the artifact
present in the directory (`getAssoc` finds its bytes), and schedules the
retention timer to fire 180000 ms (3 minutes) later; when that timer fires
the artifact is unlinked from the directory, and a subsequent fetch —
which re-resolves the file by a job-id-prefix scan of the directory at
request time — returns the 404 "File not found or has expired" response
for every range header. -/
theorem C7_retention_contract (s : JobState) (f1 f2 : Fs) (bytes : List Nat)
    (ext fname : String) (now : Nat)
    (hopen : s.ctrlClosed = false)
    (hclean : s.cleanup = emptyCleanup)
    (h1 : ∀ q ∈ f1, jsStartsWith q.1 s.jobId = false)
    (h2 : ∀ q ∈ f2, jsStartsWith q.1 s.jobId = false)
    (hid : s.jobId ≠ "") (hfn : fname ≠ "") :
    getAssoc (f1 ++ (s.jobId ++ "." ++ ext, bytes) :: f2)
        (s.jobId ++ "." ++ ext) = some bytes ∧
    JobState.events (onClose (some 0)
        (f1 ++ (s.jobId ++ "." ++ ext, bytes) :: f2) now s) =
      s.events ++ [Ev.complete ext bytes.length] ∧
    JobState.cleanup (onClose (some 0)
        (f1 ++ (s.jobId ++ "." ++ ext, bytes) :: f2) now s) =
      ⟨[⟨0, s.jobId ++ "." ++ ext, s.jobId, now + 180000, false, false⟩],
        [(s.jobId, 0)], 1⟩ ∧
    fireCleanupTimer
        ⟨0, s.jobId ++ "." ++ ext, s.jobId, now + 180000, false, false⟩
        (f1 ++ (s.jobId ++ "." ++ ext, bytes) :: f2)
        (JobState.cleanup (onClose (some 0)
          (f1 ++ (s.jobId ++ "." ++ ext, bytes) :: f2) now s)) false =
      (f1 ++ f2,
        ⟨[⟨0, s.jobId ++ "." ++ ext, s.jobId, now + 180000, false, true⟩],
          [], 1⟩) ∧
    getAssoc (f1 ++ f2) (s.jobId ++ "." ++ ext) = none ∧
    (∀ range : Option String,
      getDownloadFile (f1 ++ f2) s.jobId fname range =
        jsonResponse 404 "File not found or has expired") := by
  have hstarts : jsStartsWith (s.jobId ++ "." ++ ext) s.jobId = true := by
    rw [String.append_assoc]
    exact jsStartsWith_append s.jobId ("." ++ ext)
  have hfind := find?_names f1 f2 (s.jobId ++ "." ++ ext) bytes
    (fun f => jsStartsWith f s.jobId) h1 hstarts
  have hkeys1 : ∀ q ∈ f1, q.1 ≠ s.jobId ++ "." ++ ext := by
    intro q hq heq
    have := h1 q hq
    rw [heq, hstarts] at this
    exact absurd this (by simp)
  have hkeys2 : ∀ q ∈ f2, q.1 ≠ s.jobId ++ "." ++ ext := by
    intro q hq heq
    have := h2 q hq
    rw [heq, hstarts] at this
    exact absurd this (by simp)
  have hget := getAssoc_mid f1 f2 (s.jobId ++ "." ++ ext) bytes hkeys1
  have heq : onClose (some 0) (f1 ++ (s.jobId ++ "." ++ ext, bytes) :: f2)
      now s =
      { s with
          active := false, procClosed := true, ctrlClosed := true,
          events := s.events ++ [Ev.complete ext bytes.length],
          cleanup := scheduleFileCleanup (s.jobId ++ "." ++ ext) s.jobId now
            s.cleanup } := by
    rw [onClose_zero_found _ _ _ _ hfind]
    unfold enqueueClose
    rw [if_neg (by simp [hopen])]
    rw [hget, jsReplaceOnce_prefix]
    rfl
  have hcl : JobState.cleanup (onClose (some 0)
      (f1 ++ (s.jobId ++ "." ++ ext, bytes) :: f2) now s) =
      ⟨[⟨0, s.jobId ++ "." ++ ext, s.jobId, now + 180000, false, false⟩],
        [(s.jobId, 0)], 1⟩ := by
    rw [heq]
    show scheduleFileCleanup (s.jobId ++ "." ++ ext) s.jobId now s.cleanup = _
    rw [hclean]
    simp [scheduleFileCleanup, emptyCleanup, setAssoc, cleanupDelayMs]
  have hdel := delAssoc_mid f1 f2 (s.jobId ++ "." ++ ext) bytes hkeys1
  have hnone := getAssoc_append_none f1 f2 (s.jobId ++ "." ++ ext)
    hkeys1 hkeys2
  refine ⟨hget, ?_, hcl, ?_, hnone, ?_⟩
  · rw [heq]
  · rw [hcl]
    simp only [fireCleanupTimer, hget]
    rw [hdel]
    simp [markFired, delAssoc]
  · intro range
    exact getDownloadFile_notfound (f1 ++ f2) s.jobId fname range hid hfn
      (find?_names_none (f1 ++ f2) (fun f => jsStartsWith f s.jobId)
        (by
          intro q hq
          rcases List.mem_append.mp hq with hl | hr
          · exact h1 q hl
          · exact h2 q hr))

/-- Witness for C7: job `j`, a one-file directory, completion at time 40. -/
theorem C7_retention_contract_witness :
    getAssoc [("j" ++ "." ++ "mp4", [1, 2, 3])] ("j" ++ "." ++ "mp4") =
      some [1, 2, 3] ∧
    JobState.events (onClose (some 0) [("j" ++ "." ++ "mp4", [1, 2, 3])] 40
        (initJob "j")) =
      [Ev.started] ++ [Ev.complete "mp4" 3] ∧
    JobState.cleanup (onClose (some 0) [("j" ++ "." ++ "mp4", [1, 2, 3])] 40
        (initJob "j")) =
      ⟨[⟨0, "j" ++ "." ++ "mp4", "j", 40 + 180000, false, false⟩],
        [("j", 0)], 1⟩ ∧
    fireCleanupTimer ⟨0, "j" ++ "." ++ "mp4", "j", 40 + 180000, false, false⟩
        [("j" ++ "." ++ "mp4", [1, 2, 3])]
        (JobState.cleanup (onClose (some 0)
          [("j" ++ "." ++ "mp4", [1, 2, 3])] 40 (initJob "j"))) false =
      ([], ⟨[⟨0, "j" ++ "." ++ "mp4", "j", 40 + 180000, false, true⟩],
        [], 1⟩) ∧
    getAssoc ([] : Fs) ("j" ++ "." ++ "mp4") = none ∧
    (∀ range : Option String,
      getDownloadFile ([] : Fs) "j" "f" range =
        jsonResponse 404 "File not found or has expired") :=
  C7_retention_contract (initJob "j") [] [] [1, 2, 3] "mp4" "f" 40
    rfl rfl (by simp) (by simp) (by decide) (by decide)

/-- C8 fails as stated: the handler never clamps the requested end to the
file size, so a single-range request reaching past the end of a 10-byte
file declares `Content-Length: 100` while the stream only covers the 10
bytes of the file. -/
theorem C8_counterexample :
    (getDownloadFile [("j.mp4", List.replicate 10 7)] "j" "f"
        (some "bytes=0-99")).status = 206 ∧
    (getDownloadFile [("j.mp4", List.replicate 10 7)] "j" "f"
        (some "bytes=0-99")).contentLength = some "100" ∧
    (getDownloadFile [("j.mp4", List.replicate 10 7)] "j" "f"
        (some "bytes=0-99")).body =
      RespBody.fileBytes (List.replicate 10 7) ∧
    (List.replicate 10 7).length = 10 ∧ (10 : Nat) ≠ 100 := by
  refine ⟨?_, ?_, ?_, ?_, ?_⟩ <;> decide

/-- C8 (amended): for a single-range request `bytes=a-b` whose bounds are
digit strings with `a ≤ b < fileSize`, the resolved response has status
206, the matching `Content-Range`, and exact byte accounting — the
declared `Content-Length` is `b - a + 1`, which equals the number of bytes
of the file the stream covers; a request without a range header receives
the whole file with `Content-Length` equal to the file size.  (For a range
whose end reaches past the file, the declared length exceeds the covered
bytes — see the counterexample.) -/
theorem C8_range_contract (f1 f2 : Fs) (bytes : List Nat)
    (id fname name : String) (disp : List Nat) (sa sb : List Char)
    (st en : Nat)
    (hid : id ≠ "") (hfn : fname ≠ "")
    (h1 : ∀ q ∈ f1, jsStartsWith q.1 id = false)
    (h2 : ∀ q ∈ f2, jsStartsWith q.1 id = false)
    (hpre : jsStartsWith name id = true)
    (hkeys1 : ∀ q ∈ f1, q.1 ≠ name)
    (hdec : decodeURIComponentModel fname = some disp)
    (hsa : DigitRun sa) (hsb : DigitRun sb)
    (hst : digitsToNat sa = st) (hen : digitsToNat sb = en)
    (hle : st ≤ en) (hlt : en < bytes.length) :
    getDownloadFile (f1 ++ (name, bytes) :: f2) id fname
        (some ⟨"bytes=".toList ++ (sa ++ '-' :: sb)⟩) =
      ⟨206, contentTypeOf name, some (toString (en - st + 1)),
        some ("bytes " ++ toString st ++ "-" ++ toString en ++ "/" ++
          toString bytes.length),
        some disp,
        RespBody.fileBytes ((bytes.take (en + 1)).drop st)⟩ ∧
    ((bytes.take (en + 1)).drop st).length = en - st + 1 ∧
    getDownloadFile (f1 ++ (name, bytes) :: f2) id fname none =
      ⟨200, contentTypeOf name, some (toString bytes.length), none,
        some disp, RespBody.fileBytes bytes⟩ := by
  have hfind := find?_names f1 f2 name bytes
    (fun f => jsStartsWith f id) h1 hpre
  have hget := getAssoc_mid f1 f2 name bytes hkeys1
  refine ⟨?_, ?_, ?_⟩
  · rw [getDownloadFile_found _ _ _ _ _ _ hid hfn hfind hdec]
    show rangeResponse (contentTypeOf name)
      ((getAssoc (f1 ++ (name, bytes) :: f2) name).getD []) disp _ = _
    rw [hget]
    show rangeResponse (contentTypeOf name) bytes disp _ = _
    simp only [rangeResponse, rangeStart_eval bytes.length sa sb hsa hsb,
      rangeEnd_eval bytes.length sa sb hsa hsb, hst, hen]
    rw [if_pos ⟨by exact_mod_cast hle, by positivity⟩]
    have hclen : ((en : Int) - (st : Int) + 1) = ((en - st + 1 : Nat) : Int) := by
      omega
    rw [hclen]
    have htos : toString ((en - st + 1 : Nat) : Int) =
        toString (en - st + 1) := rfl
    have htoe : toString ((en : Nat) : Int) = toString en := rfl
    rw [htos, htoe]
    have htn : ((en : Int).toNat + 1) = en + 1 := by omega
    rw [htn]
  · have hlen1 : (bytes.take (en + 1)).length = en + 1 := by
      rw [List.length_take]
      omega
    rw [List.length_drop, hlen1]
    omega
  · rw [getDownloadFile_found _ _ _ _ _ _ hid hfn hfind hdec]
    show (⟨200, contentTypeOf name,
      some (toString ((getAssoc (f1 ++ (name, bytes) :: f2) name).getD
        []).length), none, some disp,
      RespBody.fileBytes ((getAssoc (f1 ++ (name, bytes) :: f2) name).getD
        [])⟩ : HttpResponse) = _
    rw [hget]
    rfl

/-- Witness for C8 (amended) on a 10-byte file and the range `bytes=2-4`. -/
theorem C8_range_contract_witness :
    getDownloadFile [("j.mp4", [0, 1, 2, 3, 4, 5, 6, 7, 8, 9])] "j" "f"
        (some "bytes=2-4") =
      ⟨206, "video/mp4", some "3", some "bytes 2-4/10", some [102],
        RespBody.fileBytes [2, 3, 4]⟩ ∧
    getDownloadFile [("j.mp4", [0, 1, 2, 3, 4, 5, 6, 7, 8, 9])] "j" "f"
        none =
      ⟨200, "video/mp4", some "10", none, some [102],
        RespBody.fileBytes [0, 1, 2, 3, 4, 5, 6, 7, 8, 9]⟩ := by
  have h := C8_range_contract [] [] [0, 1, 2, 3, 4, 5, 6, 7, 8, 9] "j" "f"
    "j.mp4" [102] ['2'] ['4'] 2 4 (by decide) (by decide) (by simp)
    (by simp) (by decide) (by simp) (by decide) ⟨by decide, by decide⟩
    ⟨by decide, by decide⟩ (by decide) (by decide) (by decide) (by decide)
  refine ⟨?_, ?_⟩
  · have h1 := h.1
    refine Eq.trans (Eq.trans ?_ h1) ?_
    · rfl
    · decide
  · have h3 := h.2.2
    refine Eq.trans (Eq.trans ?_ h3) ?_
    · rfl
    · decide

lemma rangeResponse_disp_invariant (ct : String) (bytes d1 d2 : List Nat)
    (r : String) :
    (rangeResponse ct bytes d1 r).status = (rangeResponse ct bytes d2 r).status ∧
    (rangeResponse ct bytes d1 r).contentType =
      (rangeResponse ct bytes d2 r).contentType ∧
    (rangeResponse ct bytes d1 r).contentLength =
      (rangeResponse ct bytes d2 r).contentLength ∧
    (rangeResponse ct bytes d1 r).contentRange =
      (rangeResponse ct bytes d2 r).contentRange ∧
    (rangeResponse ct bytes d1 r).body = (rangeResponse ct bytes d2 r).body := by
  rcases hst : rangeStart bytes.length r with _ | st
  · simp [rangeResponse, hst]
  · rcases hen : rangeEnd bytes.length r with _ | en
    · simp [rangeResponse, hst, hen]
    · simp only [rangeResponse, hst, hen]
      split_ifs with h <;> simp

/-- C10 fails as stated: the filename route parameter does influence more
than the Content-Disposition header, because `decodeURIComponent` is
applied to it and a malformed escape (here the filename `"%"`) throws,
turning the whole response into a 500 whose body differs from the 200
served for the filename `"a"` against the same directory and job id. -/
theorem C10_counterexample :
    (getDownloadFile [("j.mp4", [7])] "j" "a" none).status = 200 ∧
    (getDownloadFile [("j.mp4", [7])] "j" "%" none).status = 500 ∧
    (getDownloadFile [("j.mp4", [7])] "j" "a" none).body ≠
      (getDownloadFile [("j.mp4", [7])] "j" "%" none).body := by
  refine ⟨?_, ?_, ?_⟩ <;> decide

/-- C10 (amended): for two artifact requests against the same directory
state, job id and range header whose filename arguments are both nonempty
and both survive `decodeURIComponent`, the responses agree on status,
content type, Content-Length, Content-Range and body bytes — the filename
argument influences only the Content-Disposition header.  (A filename that
is empty or fails to decode instead changes the status to 400 resp. 500 —
see the counterexample.) -/
theorem C10_filename_noninterference (fs : Fs) (id fn1 fn2 : String)
    (d1 d2 : List Nat) (range : Option String)
    (h1 : fn1 ≠ "") (h2 : fn2 ≠ "")
    (hd1 : decodeURIComponentModel fn1 = some d1)
    (hd2 : decodeURIComponentModel fn2 = some d2) :
    (getDownloadFile fs id fn1 range).status =
      (getDownloadFile fs id fn2 range).status ∧
    (getDownloadFile fs id fn1 range).contentType =
      (getDownloadFile fs id fn2 range).contentType ∧
    (getDownloadFile fs id fn1 range).contentLength =
      (getDownloadFile fs id fn2 range).contentLength ∧
    (getDownloadFile fs id fn1 range).contentRange =
      (getDownloadFile fs id fn2 range).contentRange ∧
    (getDownloadFile fs id fn1 range).body =
      (getDownloadFile fs id fn2 range).body := by
  by_cases hid : id = ""
  · subst hid
    have e1 : getDownloadFile fs "" fn1 range =
        jsonResponse 400 "Missing parameters" := by
      unfold getDownloadFile
      rw [if_pos (Or.inl rfl)]
    have e2 : getDownloadFile fs "" fn2 range =
        jsonResponse 400 "Missing parameters" := by
      unfold getDownloadFile
      rw [if_pos (Or.inl rfl)]
    rw [e1, e2]
    exact ⟨rfl, rfl, rfl, rfl, rfl⟩
  · rcases hfind : (fs.map Prod.fst).find? (fun f => jsStartsWith f id)
      with _ | name
    · rw [getDownloadFile_notfound fs id fn1 range hid h1 hfind,
        getDownloadFile_notfound fs id fn2 range hid h2 hfind]
      exact ⟨rfl, rfl, rfl, rfl, rfl⟩
    · rw [getDownloadFile_found fs id fn1 name range d1 hid h1 hfind hd1,
        getDownloadFile_found fs id fn2 name range d2 hid h2 hfind hd2]
      cases range with
      | none => exact ⟨rfl, rfl, rfl, rfl, rfl⟩
      | some r =>
          exact rangeResponse_disp_invariant (contentTypeOf name)
            ((getAssoc fs name).getD []) d1 d2 r

/-- Witness for C10 (amended): filenames `a` and `b` against the same
one-file directory, job id and absent range header. -/
theorem C10_filename_noninterference_witness :
    (getDownloadFile [("j.mp4", [7])] "j" "a" none).status =
      (getDownloadFile [("j.mp4", [7])] "j" "b" none).status ∧
    (getDownloadFile [("j.mp4", [7])] "j" "a" none).contentType =
      (getDownloadFile [("j.mp4", [7])] "j" "b" none).contentType ∧
    (getDownloadFile [("j.mp4", [7])] "j" "a" none).contentLength =
      (getDownloadFile [("j.mp4", [7])] "j" "b" none).contentLength ∧
    (getDownloadFile [("j.mp4", [7])] "j" "a" none).contentRange =
      (getDownloadFile [("j.mp4", [7])] "j" "b" none).contentRange ∧
    (getDownloadFile [("j.mp4", [7])] "j" "a" none).body =
      (getDownloadFile [("j.mp4", [7])] "j" "b" none).body :=
  C10_filename_noninterference [("j.mp4", [7])] "j" "a" "b" [97] [98] none
    (by decide) (by decide) (by decide) (by decide)

end DL
